import Mathlib

/-!
Verification of the bcc B-to-C compiler against its design specification.

This file shallowly embeds the data model and the relevant operations of the
compiler (lexer fragments, parser, semantic analyzer, emitter helpers) as
executable Lean definitions translated from the C sources, and proves the
specification claims about them.

Conventions:
* C `long` / `int64_t` values are modelled as `Int`; where the C code
  deliberately wraps (unsigned arithmetic reinterpreted as signed) the
  wrap is made explicit via `wrap64`.
* Fallible C code (functions that report a diagnostic and abort, or that
  return a failure flag) is modelled with `Option` / `Except`.
* `Vec` push appends at the end of a list; searches scan front to back,
  matching the C loops.
-/

/-- Token kinds, from `bcc.h` (`TokenKind`). -/
inductive TokenKind where
  | tEOF | tID | tNUM | tSTR | tCHR
  | tAUTO | tIF | tELSE | tWHILE | tRETURN | tBREAK | tCONTINUE | tEXTRN
  | tLPAREN | tRPAREN | tLBRACE | tRBRACE | tCOMMA | tSEMI
  | tLBRACK | tRBRACK
  | tASSIGN | tEQ | tNE | tLT | tLE | tGT | tGE | tLSHIFT | tRSHIFT
  | tPLUS | tMINUS | tSTAR | tSLASH | tPERCENT | tBANG
  | tPLUSPLUS | tMINUSMINUS
  | tPLUSEQ | tMINUSEQ | tSTAREQ | tSLASHEQ | tPERCENTEQ | tLSHIFTEQ
  | tRSHIFTEQ | tANDEQ | tOREQ | tLTEQ | tLEEQ | tGTEQ | tGEEQ | tEQEQ | tNEEQ
  | tAMP | tBAR | tBARBAR | tQUESTION | tCOLON
  | tGOTO | tSWITCH | tCASE | tDEFAULT
  deriving DecidableEq, Repr

/-- Expression AST, from `bcc.h` (`struct Expr`); source locations are not
modelled since no checked behavior reads them. -/
inductive Expr where
  | num (n : Int)
  | str (s : String)
  | var (name : String)
  | call (callee : Expr) (args : List Expr)
  | index (base idx : Expr)
  | unary (op : TokenKind) (rhs : Expr)
  | post (op : TokenKind) (lhs : Expr)
  | bin (op : TokenKind) (lhs rhs : Expr)
  | assign (op : TokenKind) (lhs rhs : Expr)
  | ternary (cond true_expr false_expr : Expr)
  | comma (lhs rhs : Expr)

/-- Initializer tree, from `bcc.h` (`struct Init`). -/
inductive InitNode where
  | initExpr (e : Expr)
  | initList (elems : List InitNode)

/-- `auto` declaration item, from `bcc.h` (`DeclItem`). -/
structure DeclItem where
  name : String
  size : Option Expr

/-- Statement AST, from `bcc.h` (`struct Stmt`). -/
inductive Stmt where
  | empty
  | block (items : List Stmt)
  | autoDecl (decls : List DeclItem)
  | ifS (cond : Expr) (then_s : Stmt) (else_s : Option Stmt)
  | whileS (cond : Expr) (body : Stmt)
  | ret (val : Option Expr)
  | exprS (e : Expr)
  | extrnS (names : List String)
  | breakS
  | continueS
  | gotoS (target : String)
  | label (name : String) (stmt : Stmt)
  | switchS (e : Expr) (body : Stmt)
  | caseS (relop : TokenKind) (has_range : Bool) (lo hi : Int)

/-- External variable kind, from `bcc.h` (`ExtVarKind`). -/
inductive ExtVarKind where
  | scalar | blob | vector
  deriving DecidableEq, Repr

/-- External definition/declaration item, from `bcc.h` (`ExternItem`), variable
form (`is_func = 0`; the function form is rejected by the parser). -/
structure ExternItem where
  name : String
  is_implicit_static : Bool
  vkind : ExtVarKind
  bound : Option Expr
  has_empty : Bool
  ival : Option InitNode

/-- Function definition, from `bcc.h` (`Func`). -/
structure Func where
  name : String
  params : List String
  body : Stmt

/-- Top-level item, from `bcc.h` (`Top`); named `TopItem` because `Top` is
taken by Mathlib. -/
inductive TopItem where
  | gauto (s : Stmt)
  | func (f : Func)
  | externDef (item : ExternItem)
  | externDecl (item : ExternItem)

/-- Program, from `bcc.h` (`Program`). -/
structure Program where
  tops : List TopItem

-- ===================== Edge subvector sizing (emitter.c) =====================

/-- `nested_base_len` from emitter.c: base length of a nested list, reserving
one word even when the list is empty; 0 for anything that is not a list. -/
def nested_base_len : InitNode → Nat
  | .initExpr _ => 0
  | .initList es => if es.length = 0 then 1 else es.length

mutual

/-- `edge_words_total` from emitter.c: total words needed to represent a list
as a subvector, including all nested subvectors. -/
def edge_words_total : InitNode → Nat
  | .initExpr _ => 0
  | .initList es => nested_base_len (.initList es) + edge_words_child_sum es

/-- The loop inside `edge_words_total`: sums `edge_words_total` over the
children that are themselves lists. -/
def edge_words_child_sum : List InitNode → Nat
  | [] => 0
  | .initExpr _ :: rest => edge_words_child_sum rest
  | .initList es :: rest => edge_words_total (.initList es) + edge_words_child_sum rest

end

/-- `edge_tail_words_top` from emitter.c: tail words beyond the root list
slots, i.e. the sum of nested subvector allocations. -/
def edge_tail_words_top : InitNode → Nat
  | .initExpr _ => 0
  | .initList es => edge_words_child_sum es

/-- Words contributed by one child in the sizing sums: `edge_words_total` for
list children, 0 for expression children. -/
def child_edge_words (e : InitNode) : Nat :=
  match e with
  | .initList es => edge_words_total (.initList es)
  | .initExpr _ => 0

-- ===================== Lexer fragments (lexer.c) =====================

/-- The apostrophe character (ASCII 39). -/
def quote_ch : Char := Char.ofNat 39

/-- The double-quote character (ASCII 34). -/
def dquote_ch : Char := Char.ofNat 34

/-- The left-parenthesis character (ASCII 40). -/
def lparen_ch : Char := Char.ofNat 40

/-- The right-parenthesis character (ASCII 41). -/
def rparen_ch : Char := Char.ofNat 41

/-- C `isdigit` on the byte of a source character. -/
def is_digit_ch (c : Char) : Bool := 48 ≤ c.toNat && c.toNat ≤ 57

/-- The value produced by `parse_escape` in lexer.c for the character after
`*`; `none` is the `unknown escape sequence` diagnostic. -/
def escape_value (e : Char) : Option Nat :=
  if e = '0' then some 0
  else if e = 'e' then some 4
  else if e = lparen_ch then some 40
  else if e = rparen_ch then some 41
  else if e = 't' then some 9
  else if e = '*' then some 42
  else if e = quote_ch then some 39
  else if e = dquote_ch then some 34
  else if e = 'n' then some 10
  else none

/-- `LONG_MAX` on the 64-bit host. -/
def LONG_MAX : Int := 9223372036854775807

/-- Decimal value of a digit string (the in-range behavior of
`strtol(s, NULL, 10)` in `lx_next`). -/
def dec_value (ds : List Char) : Int :=
  ds.foldl (fun v d => v * 10 + ((d.toNat : Int) - 48)) 0

/-- The octal accumulation loop of `lx_next` (lexer.c lines 160-171): each
character must be a decimal digit `0..9` (otherwise the `bad octal digit`
diagnostic, modelled as `none`) and contributes `v*8 + digit`. -/
def octal_value_checked (ds : List Char) : Option Int :=
  ds.foldlM
    (fun v d =>
      if is_digit_ch d then some (v * 8 + ((d.toNat : Int) - 48)) else none)
    0

/-- The number branch of `lx_next` (lexer.c lines 137-180), given the source
suffix whose first character is a digit.  Returns the token value and the
remaining input; `none` models the `bad octal digit` / `bad number`
diagnostics (the latter is `strtol` overflow via `errno`). -/
def lx_number : List Char → Option (Int × List Char)
  | [] => none
  | c :: cs =>
    if is_digit_ch c then
      let ds := (c :: cs).takeWhile (fun x => is_digit_ch x)
      let rest := (c :: cs).dropWhile (fun x => is_digit_ch x)
      if c = '0' then
        (octal_value_checked ds).map (fun v => (v, rest))
      else if dec_value ds ≤ LONG_MAX then some (dec_value ds, rest)
      else none
    else none

/-- The character-constant loop of `lx_next` (lexer.c lines 222-247), given
the source after the opening quote and the bytes collected so far.  Returns
the collected bytes (at most four) and the remaining input.  `none` models
the diagnostics: unterminated constant, fifth character, unknown escape. -/
def lx_charconst_loop : List Char → List Nat → Option (List Nat × List Char)
  | [], _ => none
  | ch :: rest, acc =>
    if ch = quote_ch then some (acc, rest)
    else if 4 ≤ acc.length then none
    else if ch = '*' then
      match rest with
      | [] => none
      | e :: rest' =>
        match escape_value e with
        | none => none
        | some v => lx_charconst_loop rest' (acc ++ [v % 256])
    else lx_charconst_loop rest (acc ++ [ch.toNat % 256])

/-- Packing of 1-4 collected bytes into a word, byte 0 at the least
significant byte (lexer.c lines 239-243). -/
def pack_chars (cs : List Nat) : Int :=
  ((((cs.getD 0 0).lor ((cs.getD 1 0) <<< 8)).lor
      ((cs.getD 2 0) <<< 16)).lor ((cs.getD 3 0) <<< 24) : Nat)

/-- The character-constant branch of `lx_next`: input is the source after the
opening quote; the result is the `TK_CHR` token value and remaining input. -/
def lx_charconst (s : List Char) : Option (Int × List Char) :=
  (lx_charconst_loop s []).map (fun p => (pack_chars p.1, p.2))

-- ===================== Decimal formatting (printf %d / %zu) =====================

/-- One decimal digit character. -/
def digit_ch (d : Nat) : Char :=
  match d with
  | 0 => '0' | 1 => '1' | 2 => '2' | 3 => '3' | 4 => '4'
  | 5 => '5' | 6 => '6' | 7 => '7' | 8 => '8' | 9 => '9'
  | _ => '?'

/-- Digit loop of the decimal printer, with explicit fuel so the recursion
is structural; `fuel = n` always suffices since the argument shrinks by a
factor of ten per step. -/
def nat_dec_digits_go : Nat → Nat → List Char
  | 0, n => [digit_ch n]
  | Nat.succ fuel, n =>
    if n < 10 then [digit_ch n]
    else nat_dec_digits_go fuel (n / 10) ++ [digit_ch (n % 10)]

/-- Decimal digit characters of a natural number, most significant first
(the output of printf `%d` for nonnegative values). -/
def nat_dec_digits (n : Nat) : List Char := nat_dec_digits_go n n

/-- printf `%zu` of a natural number. -/
def natToDec (n : Nat) : String := String.mk (nat_dec_digits n)

/-- Decimal reading of a digit string, inverse of the decimal printer. -/
def digits_val (l : List Char) : Nat :=
  l.foldl (fun a c => a * 10 + (c.toNat - 48)) 0

/-- printf `%` PRId64 of an integer. -/
def intToDec (n : Int) : String :=
  if n < 0 then "-" ++ natToDec (-n).toNat else natToDec n.toNat

-- ===================== Parser (parser.c) =====================

/-- Token as consumed by the parser; source locations are not modelled. -/
structure Token where
  kind : TokenKind
  lexeme : String
  num : Int

/-- `is_assign_op` from parser.c. -/
def is_assign_op (k : TokenKind) : Bool :=
  match k with
  | .tASSIGN | .tPLUSEQ | .tMINUSEQ | .tSTAREQ | .tSLASHEQ | .tPERCENTEQ
  | .tLSHIFTEQ | .tRSHIFTEQ | .tANDEQ | .tOREQ
  | .tLTEQ | .tLEEQ | .tGTEQ | .tGEEQ | .tEQEQ | .tNEEQ => true
  | _ => false

/-- `is_lvalue` from parser.c: variable, index, or unary dereference. -/
def is_lvalue : Expr → Bool
  | .var _ => true
  | .index _ _ => true
  | .unary .tSTAR _ => true
  | _ => false

/-- `is_unary` from parser.c. -/
def is_unary_tok (k : TokenKind) : Bool :=
  match k with
  | .tMINUS | .tBANG | .tSTAR | .tAMP | .tPLUSPLUS | .tMINUSMINUS => true
  | _ => false

/-- `precedence` from parser.c (lines 78-98): binding strength of the binary
operators, larger binds tighter; 0 means not a binary operator. -/
def precedence (k : TokenKind) : Nat :=
  match k with
  | .tBARBAR => 2
  | .tEQ | .tNE => 3
  | .tLT | .tLE | .tGT | .tGE => 4
  | .tPLUS | .tMINUS | .tLSHIFT | .tRSHIFT => 5
  | .tSTAR | .tSLASH | .tPERCENT => 6
  | .tBAR => 7
  | .tAMP => 8
  | _ => 0

/-- Kind of the current token; an exhausted stream reads as EOF. -/
def peekKind : List Token → TokenKind
  | [] => .tEOF
  | t :: _ => t.kind

/-!
The recursive-descent expression parser (parser.c).  The C functions recurse
without an explicit bound; here each function consumes one unit of `fuel` per
call so the recursion is structural.  `none` models every parse diagnostic
(`error_at`, `dief`).  Each parser returns the parsed expression and the
remaining token stream.
-/

mutual

/-- `parse_primary` from parser.c. -/
def parse_primary : Nat → List Token → Option (Expr × List Token)
  | 0, _ => none
  | Nat.succ fuel, ts =>
    match ts with
    | [] => none
    | t :: rest =>
      match t.kind with
      | .tNUM => some (.num t.num, rest)
      | .tCHR => some (.num t.num, rest)
      | .tSTR => some (.str t.lexeme, rest)
      | .tID => some (.var t.lexeme, rest)
      | .tLPAREN =>
        match parse_expr fuel rest with
        | none => none
        | some (e, ts1) =>
          match ts1 with
          | t1 :: rest1 => if t1.kind = .tRPAREN then some (e, rest1) else none
          | [] => none
      | _ => none

/-- Argument list of a call, after `(` when the next token is not `)`
(the loop in `parse_postfix`); arguments are assignment expressions. -/
def parse_args : Nat → List Token → Option (List Expr × List Token)
  | 0, _ => none
  | Nat.succ fuel, ts =>
    match parse_assignment fuel ts with
    | none => none
    | some (arg, ts1) =>
      match peekKind ts1 with
      | .tCOMMA =>
        match parse_args fuel ts1.tail with
        | none => none
        | some (args, ts2) => some (arg :: args, ts2)
      | .tRPAREN => some ([arg], ts1.tail)
      | _ => none

/-- The postfix loop of `parse_postfix`: calls, indexing, postfix `++ --`. -/
def parse_postfix_loop : Nat → Expr → List Token → Option (Expr × List Token)
  | 0, _, _ => none
  | Nat.succ fuel, e, ts =>
    match peekKind ts with
    | .tLPAREN =>
      let ts1 := ts.tail
      match peekKind ts1 with
      | .tRPAREN => parse_postfix_loop fuel (.call e []) ts1.tail
      | _ =>
        match parse_args fuel ts1 with
        | none => none
        | some (args, ts2) => parse_postfix_loop fuel (.call e args) ts2
    | .tLBRACK =>
      match parse_expr fuel ts.tail with
      | none => none
      | some (idx, ts1) =>
        match peekKind ts1 with
        | .tRBRACK => parse_postfix_loop fuel (.index e idx) ts1.tail
        | _ => none
    | .tPLUSPLUS =>
      if is_lvalue e then parse_postfix_loop fuel (.post .tPLUSPLUS e) ts.tail
      else none
    | .tMINUSMINUS =>
      if is_lvalue e then parse_postfix_loop fuel (.post .tMINUSMINUS e) ts.tail
      else none
    | _ => some (e, ts)

/-- `parse_postfix` from parser.c. -/
def parse_postfix : Nat → List Token → Option (Expr × List Token)
  | 0, _ => none
  | Nat.succ fuel, ts =>
    match parse_primary fuel ts with
    | none => none
    | some (e, ts1) => parse_postfix_loop fuel e ts1

/-- `parse_unary` from parser.c: prefix operators with the lvalue checks for
prefix `++ --` and `&`. -/
def parse_unary : Nat → List Token → Option (Expr × List Token)
  | 0, _ => none
  | Nat.succ fuel, ts =>
    let k := peekKind ts
    if is_unary_tok k then
      match parse_unary fuel ts.tail with
      | none => none
      | some (rhs, ts1) =>
        if (k = .tPLUSPLUS ∨ k = .tMINUSMINUS) ∧ ¬ is_lvalue rhs then none
        else if k = .tAMP ∧ ¬ is_lvalue rhs then none
        else some (.unary k rhs, ts1)
    else parse_postfix fuel ts

/-- `parse_bin_rhs` from parser.c (lines 777-798): precedence climbing. -/
def parse_bin_rhs : Nat → Nat → Expr → List Token → Option (Expr × List Token)
  | 0, _, _, _ => none
  | Nat.succ fuel, minPrec, lhs, ts =>
    let prec := precedence (peekKind ts)
    if prec < minPrec then some (lhs, ts)
    else
      let op := peekKind ts
      match parse_unary fuel ts.tail with
      | none => none
      | some (rhs, ts1) =>
        let step :=
          if prec < precedence (peekKind ts1) then
            parse_bin_rhs fuel (prec + 1) rhs ts1
          else some (rhs, ts1)
        match step with
        | none => none
        | some (rhs1, ts2) => parse_bin_rhs fuel minPrec (.bin op lhs rhs1) ts2

/-- `parse_conditional` from parser.c: binary expression then optional
ternary. -/
def parse_conditional : Nat → List Token → Option (Expr × List Token)
  | 0, _ => none
  | Nat.succ fuel, ts =>
    match parse_unary fuel ts with
    | none => none
    | some (e0, ts1) =>
      match parse_bin_rhs fuel 1 e0 ts1 with
      | none => none
      | some (e, ts2) =>
        match peekKind ts2 with
        | .tQUESTION =>
          match parse_assignment fuel ts2.tail with
          | none => none
          | some (te, ts3) =>
            match peekKind ts3 with
            | .tCOLON =>
              match parse_assignment fuel ts3.tail with
              | none => none
              | some (fe, ts4) => some (.ternary e te fe, ts4)
            | _ => none
        | _ => some (e, ts2)

/-- `parse_assignment` from parser.c: right-associative assignment with the
lvalue check. -/
def parse_assignment : Nat → List Token → Option (Expr × List Token)
  | 0, _ => none
  | Nat.succ fuel, ts =>
    match parse_conditional fuel ts with
    | none => none
    | some (lhs, ts1) =>
      let k := peekKind ts1
      if is_assign_op k then
        if is_lvalue lhs then
          match parse_assignment fuel ts1.tail with
          | none => none
          | some (rhs, ts2) => some (.assign k lhs rhs, ts2)
        else none
      else some (lhs, ts1)

/-- The comma loop of `parse_expr`. -/
def parse_expr_comma_loop : Nat → Expr → List Token → Option (Expr × List Token)
  | 0, _, _ => none
  | Nat.succ fuel, e, ts =>
    match peekKind ts with
    | .tCOMMA =>
      match parse_assignment fuel ts.tail with
      | none => none
      | some (rhs, ts1) => parse_expr_comma_loop fuel (.comma e rhs) ts1
    | _ => some (e, ts)

/-- `parse_expr` from parser.c: assignment expressions joined by commas. -/
def parse_expr : Nat → List Token → Option (Expr × List Token)
  | 0, _ => none
  | Nat.succ fuel, ts =>
    match parse_assignment fuel ts with
    | none => none
    | some (e, ts1) => parse_expr_comma_loop fuel e ts1

end

/-- `eval_const_expr` from parser.c (lines 416-470), used by `parse_case`:
plain 64-bit signed evaluation; every `dief` branch (non-constant node,
division or mod by zero) is `none`. -/
def eval_const_expr : Expr → Option Int
  | .num n => some n
  | .unary op rhs =>
    match eval_const_expr rhs with
    | none => none
    | some v =>
      match op with
      | .tMINUS => some (-v)
      | .tBANG => some (if v = 0 then 1 else 0)
      | _ => none
  | .bin op lhs rhs =>
    match eval_const_expr lhs with
    | none => none
    | some a =>
      match eval_const_expr rhs with
      | none => none
      | some b =>
        match op with
        | .tPLUS => some (a + b)
        | .tMINUS => some (a - b)
        | .tSTAR => some (a * b)
        | .tSLASH => if b = 0 then none else some (Int.tdiv a b)
        | .tPERCENT => if b = 0 then none else some (Int.tmod a b)
        | .tAMP => some (Int.land a b)
        | .tBAR => some (Int.lor a b)
        | .tBARBAR => some (if a ≠ 0 ∨ b ≠ 0 then 1 else 0)
        | .tEQ => some (if a = b then 1 else 0)
        | .tNE => some (if a = b then 0 else 1)
        | .tLT => some (if a < b then 1 else 0)
        | .tLE => some (if a ≤ b then 1 else 0)
        | .tGT => some (if b < a then 1 else 0)
        | .tGE => some (if b ≤ a then 1 else 0)
        | _ => none
  | _ => none

/-- The case node built by `parse_case` (parser.c lines 520-538) for
`case <expr> :`, after the const evaluation: no relop, no range, lo = hi =
the folded value. -/
def parse_case_stmt (a : Expr) : Option Stmt :=
  (eval_const_expr a).map (fun val => .caseS .tEOF false val val)

/-- The case node built by `parse_default` (parser.c lines 540-555) for
`default :`: no relop, no range, lo = hi = -1 as the special marker. -/
def parse_default_stmt : Stmt := .caseS .tEOF false (-1) (-1)

-- ===================== Switch dispatch emission (emit_switch) =====================

/-- Relational-operator spelling used in the dispatch table
(emit_switch, lines 562-569). -/
def relop_str (k : TokenKind) : String :=
  match k with
  | .tLT => "<"
  | .tLE => "<="
  | .tGT => ">"
  | .tGE => ">="
  | _ => "??"

/-- The conditional expression emitted for one case in the switch dispatch
table (emit_switch, emitter.c lines 560-577): a bound case uses its
relational operator, a range case an interval test, and every other case an
equality test of the discriminant against `lo`. -/
def dispatch_cond (relop : TokenKind) (has_range : Bool) (lo hi : Int) : String :=
  if relop ≠ .tEOF then
    "__sw " ++ relop_str relop ++ " (word)" ++ intToDec lo
  else if has_range then
    "(__sw >= (word)" ++ intToDec lo ++ " && __sw <= (word)" ++ intToDec hi ++ ")"
  else
    "__sw == (word)" ++ intToDec lo

/-- The dispatch conditional for a case statement node. -/
def dispatch_cond_of : Stmt → Option String
  | .caseS relop has_range lo hi => some (dispatch_cond relop has_range lo hi)
  | _ => none

-- ===================== Constant folding (emitter.c) =====================

/-- Conversion of an unsigned 64-bit computation result back to a signed
64-bit `long`: reduce modulo 2^64 into [-2^63, 2^63). -/
def wrap64 (x : Int) : Int :=
  (x + 9223372036854775808) % 18446744073709551616 - 9223372036854775808

/-- `try_eval_const_expr` from emitter.c (lines 1035-1081): the folder used
for vector bounds.  `+ - *` are computed in `unsigned long` and reinterpreted
as `long` (`wrap64`); `/ %` are the C signed operations guarded against a
zero divisor; `none` is the `return 0` failure. -/
def try_eval_const_expr : Expr → Option Int
  | .num n => some n
  | .unary op rhs =>
    match try_eval_const_expr rhs with
    | none => none
    | some v =>
      match op with
      | .tMINUS => some (-v)
      | .tBANG => some (if v = 0 then 1 else 0)
      | _ => none
  | .bin op lhs rhs =>
    match try_eval_const_expr lhs with
    | none => none
    | some a =>
      match try_eval_const_expr rhs with
      | none => none
      | some b =>
        match op with
        | .tPLUS => some (wrap64 (a + b))
        | .tMINUS => some (wrap64 (a - b))
        | .tSTAR => some (wrap64 (a * b))
        | .tSLASH => if b = 0 then none else some (Int.tdiv a b)
        | .tPERCENT => if b = 0 then none else some (Int.tmod a b)
        | .tLT => some (if a < b then 1 else 0)
        | .tLE => some (if a ≤ b then 1 else 0)
        | .tGT => some (if b < a then 1 else 0)
        | .tGE => some (if b ≤ a then 1 else 0)
        | .tEQ => some (if a = b then 1 else 0)
        | .tNE => some (if a = b then 0 else 1)
        | .tAMP => some (Int.land a b)
        | .tBAR => some (Int.lor a b)
        | .tBARBAR => some (if a ≠ 0 ∨ b ≠ 0 then 1 else 0)
        | _ => none
  | .comma lhs rhs =>
    match try_eval_const_expr lhs with
    | none => none
    | some _ => try_eval_const_expr rhs
  | _ => none

-- ===================== Vector storage emission (emit_program_c) =====================

/-- `init_list_length` from emitter.c, on a possibly missing initializer. -/
def init_list_length : Option InitNode → Nat
  | some (.initList es) => es.length
  | _ => 0

/-- Tail words of a possibly missing initializer, as computed at the vector
and blob emission sites. -/
def init_tail_words : Option InitNode → Nat
  | some (.initList es) => edge_tail_words_top (.initList es)
  | _ => 0

/-- `outer_len` for a vector external definition (emit_program_c, emitter.c
lines 2301-2317): with empty brackets the initializer length (at least 1);
with a bound that folds, the folded value clamped to 0, plus one, raised to
the initializer length; otherwise the initializer length (at least 1). -/
def vector_outer_len (item : ExternItem) : Nat :=
  let init_len := init_list_length item.ival
  if item.has_empty then
    if init_len = 0 then 1 else init_len
  else
    match item.bound with
    | some b =>
      match try_eval_const_expr b with
      | some bv =>
        let bv := if bv < 0 then 0 else bv
        let outer := (bv + 1).toNat
        if outer < init_len then init_len else outer
      | none => if init_len = 0 then 1 else init_len
    | none => if init_len = 0 then 1 else init_len

/-- Length of `__<mname>_store` for a vector external definition
(emit_program_c, emitter.c lines 2319-2323): `outer_len + tail`, clamped to
at least one word. -/
def vector_store_total (item : ExternItem) : Nat :=
  let total := vector_outer_len item + init_tail_words item.ival
  if total = 0 then 1 else total

/-- Modelled from the claim wording, for comparison with the code: the store
has `outer_len + tail` words where `outer_len` is the initializer length with
empty brackets and otherwise `max(folded bound + 1, initializer length)`
(`none` when the bound is required but does not fold). -/
def vector_store_total_claim (item : ExternItem) : Option Int :=
  let init_len : Int := init_list_length item.ival
  let tail : Int := init_tail_words item.ival
  if item.has_empty then some (init_len + tail)
  else
    match item.bound.bind try_eval_const_expr with
    | some bv => some (max (bv + 1) init_len + tail)
    | none => none

/-- One assignment emitted by the file-scoped init routine:
`setPtrToStoreBase name store` is `name = B_ADDR(store[0]);`,
`slotExpr arr idx e` is `arr[idx] = <ival of e>;`, and
`slotAddr arr idx src` is `arr[idx] = B_ADDR(arr[src]);`. -/
inductive InitInstr where
  | setPtrToStoreBase (name : String) (store : String)
  | slotExpr (arr : String) (idx : Nat) (e : Expr)
  | slotAddr (arr : String) (idx : Nat) (src : Nat)

mutual

/-- `emit_edge_list_init` from emitter.c (lines 1112-1143): depth-first
initialization of a list with a running cursor into the tail region; returns
the emitted assignments and the final cursor. -/
def emit_edge_list_init (arr : String) (base : Nat) :
    InitNode → Nat → List InitInstr × Nat
  | .initExpr _, cursor => ([], cursor)
  | .initList es, cursor => edge_init_items arr base 0 es cursor

/-- The element loop of `emit_edge_list_init` (index `j`). -/
def edge_init_items (arr : String) (base : Nat) (j : Nat) :
    List InitNode → Nat → List InitInstr × Nat
  | [], cursor => ([], cursor)
  | .initExpr e :: rest, cursor =>
    let tl := edge_init_items arr base (j + 1) rest cursor
    (.slotExpr arr (base + j) e :: tl.1, tl.2)
  | .initList es :: rest, cursor =>
    let sub_base := cursor
    let sub_bl := nested_base_len (.initList es)
    let sub := emit_edge_list_init arr sub_base (.initList es) (sub_base + sub_bl)
    let need_end := sub_base + edge_words_total (.initList es)
    let cursor2 := if sub.2 < need_end then need_end else sub.2
    let tl := edge_init_items arr base (j + 1) rest cursor2
    (.slotAddr arr (base + j) sub_base :: (sub.1 ++ tl.1), tl.2)

end

/-- The assignments emitted in `__b_init` for a vector external definition
(emit_program_c, emitter.c lines 2379-2402): the pointer cell is set to the
address of the store's first element, then the initializer elements and edge
subvectors are written with the tail cursor starting at `outer_len`. -/
def emit_init_vector (item : ExternItem) (mname : String) : List InitInstr :=
  let store := "__" ++ mname ++ "_store"
  .setPtrToStoreBase mname store ::
    (match item.ival with
     | some (.initList es) =>
       (emit_edge_list_init store 0 (.initList es) (vector_outer_len item)).1
     | _ => [])

-- ===================== Name mangling (emitter.c) =====================

/-- `c_keywords` from emitter.c: names the mangler must avoid. -/
def c_keywords : List String :=
  ["auto", "break", "case", "char", "const", "continue", "default", "do",
   "double", "else", "enum", "extern", "float", "for", "goto", "if",
   "inline", "int", "long", "register", "restrict", "return", "short",
   "signed", "sizeof", "static", "struct", "switch", "typedef", "union",
   "unsigned", "void", "volatile", "while", "_Bool", "_Complex", "_Imaginary",
   "_Alignas", "_Alignof", "_Atomic", "_Generic", "_Noreturn",
   "_Static_assert", "_Thread_local",
   "NULL", "true", "false", "bool",
   "word", "B_PTR", "B_ADDR", "B_DEREF"]

/-- `is_c_keyword` from emitter.c. -/
def is_c_keyword (name : String) : Bool := c_keywords.contains name

/-- `is_c_ident_char` from emitter.c. -/
def is_c_ident_char (c : Char) : Bool :=
  (97 ≤ c.toNat && c.toNat ≤ 122) || (65 ≤ c.toNat && c.toNat ≤ 90) ||
  (48 ≤ c.toNat && c.toNat ≤ 57) || c = '_'

/-- `is_c_ident_first` from emitter.c. -/
def is_c_ident_first (c : Char) : Bool :=
  (97 ≤ c.toNat && c.toNat ≤ 122) || (65 ≤ c.toNat && c.toNat ≤ 90) || c = '_'

/-- One uppercase hex digit. -/
def hex_digit (d : Nat) : Char :=
  match d with
  | 0 => '0' | 1 => '1' | 2 => '2' | 3 => '3' | 4 => '4'
  | 5 => '5' | 6 => '6' | 7 => '7' | 8 => '8' | 9 => '9'
  | 10 => 'A' | 11 => 'B' | 12 => 'C' | 13 => 'D' | 14 => 'E' | 15 => 'F'
  | _ => '?'

/-- sprintf `%02X` of a byte value. -/
def byte_hex (b : Nat) : List Char := [hex_digit (b / 16 % 16), hex_digit (b % 16)]

/-- Encoding of a non-first identifier character in `mangle_name_raw`:
valid characters kept, `.` becomes `_`, anything else `_XX` hex. -/
def mangle_char_rest (c : Char) : List Char :=
  if is_c_ident_char c then [c]
  else if c = '.' then ['_']
  else '_' :: byte_hex (c.toNat % 256)

/-- `mangle_name_raw` from emitter.c (lines 106-142). -/
def mangle_name_raw (original : String) : String :=
  match original.data with
  | [] => "__empty"
  | c0 :: rest =>
    let head :=
      if is_c_ident_first c0 then [c0]
      else if c0 = '.' then ['_', '_']
      else '_' :: byte_hex (c0.toNat % 256)
    String.mk (head ++ (rest.map mangle_char_rest).flatten)

/-- An entry of the name map (`NameEntry` in emitter.c). -/
structure NameEntry where
  original : String
  mangled : String
  deriving DecidableEq, Repr

/-- `mangled_exists` from emitter.c (lines 145-151). -/
def mangled_exists (mangled : String) (m : List NameEntry) : Bool :=
  m.any (fun e => e.mangled = mangled)

/-- The collision loop of `get_mangled_name`: try `base_k`, `base_(k+1)`, …
until the candidate is not in the map.  The C do-while always terminates
because the map is finite; here the search carries `fuel`, and
`fuel = m.length + 1` provably suffices. -/
def find_suffix (m : List NameEntry) (base : String) : Nat → Nat → String
  | 0, k => base ++ "_" ++ natToDec k
  | Nat.succ fuel, k =>
    let cand := base ++ "_" ++ natToDec k
    if mangled_exists cand m then find_suffix m base fuel (k + 1) else cand

/-- `get_mangled_name` from emitter.c (lines 154-192): reuse a recorded
mangling, otherwise mangle, avoid C keywords with a `b_` prefix, resolve
collisions with a numeric suffix starting at 2, and record the result. -/
def get_mangled_name (original : String) (m : List NameEntry) :
    String × List NameEntry :=
  match m.find? (fun e => e.original = original) with
  | some e => (e.mangled, m)
  | none =>
    let m1 := mangle_name_raw original
    let m2 := if is_c_keyword m1 then "b_" ++ m1 else m1
    let m3 := if mangled_exists m2 m then find_suffix m m2 (m.length + 1) 2 else m2
    (m3, m ++ [⟨original, m3⟩])

/-- Processing a list of identifiers through the mangler, starting from a
given map (the per-compilation-unit history of `get_mangled_name` calls). -/
def mangle_all (names : List String) (m : List NameEntry) : List NameEntry :=
  match names with
  | [] => m
  | n :: rest => mangle_all rest (get_mangled_name n m).2

-- ===================== Semantic analysis (sem.c) =====================

/-- Symbol kind, from `bcc.h` (`SymbolKind`). -/
inductive SymbolKind where
  | symVar | symFunc | symLabel
  deriving DecidableEq, Repr

/-- Symbol-table entry, from `bcc.h` (`Symbol`; named `BSymbol` because `Symbol` is taken); the location and the
variant payloads are written but never read by the checks, so they are not
modelled. -/
structure BSymbol where
  kind : SymbolKind
  name : String
  is_ext : Bool
  deriving DecidableEq, Repr

/-- Semantic-analysis state, from `bcc.h` (`SemState`).  The scope chain is
the list of scopes, innermost first; the last entry is the global scope.
Every `Vec` push appends at the end of the corresponding list. -/
structure SemState where
  scopes : List (List BSymbol)
  ext_names : List String
  fn_names : List String
  implicit_statics : List String

/-- The fatal semantic diagnostics (`error_at_location` / `dief` in sem.c). -/
inductive SemErr where
  | undefined_name (n : String)
  | redeclaration (n : String)
  | not_a_variable (n : String)
  | not_callable (n : String)
  | invalid_lvalue
  | duplicate_label (n : String)
  | duplicate_extern_def (n : String)
  | internal (msg : String)
  deriving DecidableEq, Repr

/-- `scope_find` from sem.c: look the name up through the scope chain,
innermost first, scanning each scope in insertion order. -/
def scope_find : List (List BSymbol) → String → Option BSymbol
  | [], _ => none
  | s :: rest, name =>
    match s.find? (fun sym => sym.name = name) with
    | some sym => some sym
    | none => scope_find rest name

/-- `scope_has_in_current` from sem.c: membership in the current scope only. -/
def scope_has_in_current (st : SemState) (name : String) : Bool :=
  match st.scopes with
  | [] => false
  | s :: _ => s.any (fun sym => sym.name = name)

/-- `scope_add` from sem.c: append the symbol to the current scope. -/
def scope_add (st : SemState) (sym : BSymbol) : SemState :=
  match st.scopes with
  | [] => st
  | s :: rest => ⟨(s ++ [sym]) :: rest, st.ext_names, st.fn_names, st.implicit_statics⟩

/-- `sem_push_scope` from sem.c. -/
def sem_push_scope (st : SemState) : SemState :=
  ⟨[] :: st.scopes, st.ext_names, st.fn_names, st.implicit_statics⟩

/-- `sem_pop_scope` from sem.c; popping the global scope is the internal
fatal error. -/
def sem_pop_scope (st : SemState) : Except SemErr SemState :=
  match st.scopes with
  | [] => .error (.internal "cannot pop global scope")
  | [_] => .error (.internal "cannot pop global scope")
  | _ :: rest => .ok ⟨rest, st.ext_names, st.fn_names, st.implicit_statics⟩

/-- `is_extern_name` from sem.c. -/
def is_extern_name (st : SemState) (name : String) : Bool :=
  st.ext_names.contains name

/-- `is_function_name` from sem.c. -/
def is_function_name (st : SemState) (name : String) : Bool :=
  st.fn_names.contains name

/-- `is_implicit_static` from sem.c. -/
def is_implicit_static_name (st : SemState) (name : String) : Bool :=
  st.implicit_statics.contains name

/-- Push a name onto the implicit-statics list. -/
def push_implicit (st : SemState) (name : String) : SemState :=
  ⟨st.scopes, st.ext_names, st.fn_names, st.implicit_statics ++ [name]⟩

/-- Push a name onto the extern-names list. -/
def push_extern_name (st : SemState) (name : String) : SemState :=
  ⟨st.scopes, st.ext_names ++ [name], st.fn_names, st.implicit_statics⟩

/-- Push a name onto the function-names list. -/
def push_fn_name (st : SemState) (name : String) : SemState :=
  ⟨st.scopes, st.ext_names, st.fn_names ++ [name], st.implicit_statics⟩

/-- The builtin seed list of `sem_add_builtin_functions` (sem.c lines
94-115), in source order. -/
def builtins : List String :=
  ["print", "putchar", "getchar", "exit", "alloc",
   "char", "lchar", "getchr", "putchr", "getstr", "putstr", "flush",
   "reread", "printf", "printn", "putnum",
   "open", "close", "read", "write", "creat", "seek", "openr", "openw",
   "fork", "wait", "execl", "execv",
   "chdir", "chmod", "chown", "link", "unlink", "stat", "fstat",
   "time", "ctime", "getuid", "setuid", "makdir", "intr",
   "system", "callf",
   "gtty", "stty",
   "argc", "argv"]

/-- `sem_state_new` from sem.c: one global scope pre-seeded with the builtin
function symbols, which are also recorded as function names. -/
def sem_state_new : SemState :=
  ⟨[builtins.map (fun n => ⟨.symFunc, n, false⟩)], [], builtins, []⟩

mutual

/-- `sem_check_lvalue` from sem.c (lines 169-202). -/
def sem_check_lvalue (st : SemState) : Expr → Except SemErr SemState
  | .var name =>
    match scope_find st.scopes name with
    | none =>
      if is_extern_name st name || is_implicit_static_name st name then .ok st
      else .ok (push_implicit st name)
    | some sym =>
      if sym.kind = .symVar then .ok st else .error (.not_a_variable name)
  | .index base idx =>
    match sem_check_lvalue st base with
    | .error e => .error e
    | .ok st1 => sem_check_expr st1 idx
  | .unary op rhs =>
    if op = .tSTAR then sem_check_expr st rhs else .error .invalid_lvalue
  | _ => .error .invalid_lvalue

/-- `sem_check_expr` from sem.c (lines 205-283).  For `num` and `str` nodes
the C `switch` falls through into the `EX_POST` arm and passes an
uninitialized union member to `sem_check_lvalue`; the behavior modelled here
is the defined execution of that code, in which the stray pointer is null and
the call returns immediately. -/
def sem_check_expr (st : SemState) : Expr → Except SemErr SemState
  | .var name =>
    match scope_find st.scopes name with
    | none =>
      if is_extern_name st name || is_implicit_static_name st name then .ok st
      else .ok (push_implicit st name)
    | some _ => .ok st
  | .call callee args =>
    match callee with
    | .var fname =>
      match scope_find st.scopes fname with
      | none =>
        if is_function_name st fname || is_extern_name st fname then
          sem_check_expr_list st args
        else .error (.undefined_name fname)
      | some sym =>
        if sym.kind = .symVar ∨ sym.kind = .symFunc then
          sem_check_expr_list st args
        else .error (.not_callable fname)
    | _ =>
      match sem_check_expr st callee with
      | .error e => .error e
      | .ok st1 => sem_check_expr_list st1 args
  | .index base idx =>
    match sem_check_expr st base with
    | .error e => .error e
    | .ok st1 => sem_check_expr st1 idx
  | .unary op rhs =>
    if op = .tPLUSPLUS ∨ op = .tMINUSMINUS then sem_check_lvalue st rhs
    else sem_check_expr st rhs
  | .bin _ lhs rhs =>
    match sem_check_expr st lhs with
    | .error e => .error e
    | .ok st1 => sem_check_expr st1 rhs
  | .assign _ lhs rhs =>
    match sem_check_lvalue st lhs with
    | .error e => .error e
    | .ok st1 => sem_check_expr st1 rhs
  | .comma lhs rhs =>
    match sem_check_expr st lhs with
    | .error e => .error e
    | .ok st1 => sem_check_expr st1 rhs
  | .ternary c t f =>
    match sem_check_expr st c with
    | .error e => .error e
    | .ok st1 =>
      match sem_check_expr st1 t with
      | .error e => .error e
      | .ok st2 => sem_check_expr st2 f
  | .num _ => .ok st
  | .str _ => .ok st
  | .post _ lhs => sem_check_lvalue st lhs

/-- The argument loop of the `EX_CALL` case. -/
def sem_check_expr_list (st : SemState) : List Expr → Except SemErr SemState
  | [] => .ok st
  | e :: rest =>
    match sem_check_expr st e with
    | .error err => .error err
    | .ok st1 => sem_check_expr_list st1 rest

end

/-- The declaration loop of the `ST_AUTO` case of `sem_check_stmt` (sem.c
lines 302-320). -/
def sem_check_auto_decls (st : SemState) : List DeclItem → Except SemErr SemState
  | [] => .ok st
  | item :: rest =>
    if scope_has_in_current st item.name then .error (.redeclaration item.name)
    else
      let st1 := scope_add st ⟨.symVar, item.name, false⟩
      match item.size with
      | some sz =>
        match sem_check_expr st1 sz with
        | .error e => .error e
        | .ok st2 => sem_check_auto_decls st2 rest
      | none => sem_check_auto_decls st1 rest

/-- The name loop of the `ST_EXTRN` case of `sem_check_stmt` (sem.c lines
343-351): record each name, without duplicates. -/
def sem_record_extrn_names (st : SemState) : List String → SemState
  | [] => st
  | n :: rest =>
    let st1 := if is_extern_name st n then st else push_extern_name st n
    sem_record_extrn_names st1 rest

mutual

/-- `sem_check_stmt` from sem.c (lines 286-383).  The switch-fallthrough scan
only prints a warning and changes no state, so it is not modelled. -/
def sem_check_stmt (st : SemState) : Stmt → Except SemErr SemState
  | .empty => .ok st
  | .block items =>
    match sem_check_stmt_list (sem_push_scope st) items with
    | .error e => .error e
    | .ok st1 => sem_pop_scope st1
  | .autoDecl decls => sem_check_auto_decls st decls
  | .ifS cond then_s else_s =>
    match sem_check_expr st cond with
    | .error e => .error e
    | .ok st1 =>
      match sem_check_stmt st1 then_s with
      | .error e => .error e
      | .ok st2 => sem_check_else st2 else_s
  | .whileS cond body =>
    match sem_check_expr st cond with
    | .error e => .error e
    | .ok st1 => sem_check_stmt st1 body
  | .ret val =>
    match val with
    | some v => sem_check_expr st v
    | none => .ok st
  | .exprS e => sem_check_expr st e
  | .extrnS names => .ok (sem_record_extrn_names st names)
  | .breakS => .ok st
  | .continueS => .ok st
  | .gotoS _ => .ok st
  | .label name stmt =>
    if scope_has_in_current st name then .error (.duplicate_label name)
    else sem_check_stmt (scope_add st ⟨.symLabel, name, false⟩) stmt
  | .switchS e body =>
    match sem_check_expr st e with
    | .error err => .error err
    | .ok st1 => sem_check_stmt st1 body
  | .caseS _ _ _ _ => .ok st

/-- The else branch of the `ST_IF` case (checked only when present). -/
def sem_check_else (st : SemState) : Option Stmt → Except SemErr SemState
  | some s => sem_check_stmt st s
  | none => .ok st

/-- The item loop of the `ST_BLOCK` case. -/
def sem_check_stmt_list (st : SemState) : List Stmt → Except SemErr SemState
  | [] => .ok st
  | s :: rest =>
    match sem_check_stmt st s with
    | .error e => .error e
    | .ok st1 => sem_check_stmt_list st1 rest

end

/-- The parameter loop of `sem_check_func` (sem.c lines 390-399). -/
def sem_add_params (st : SemState) : List String → Except SemErr SemState
  | [] => .ok st
  | p :: rest =>
    if scope_has_in_current st p then .error (.redeclaration p)
    else sem_add_params (scope_add st ⟨.symVar, p, false⟩) rest

/-- `sem_check_func` from sem.c (lines 386-405). -/
def sem_check_func (st : SemState) (f : Func) : Except SemErr SemState :=
  match sem_add_params (sem_push_scope st) f.params with
  | .error e => .error e
  | .ok st1 =>
    match sem_check_stmt st1 f.body with
    | .error e => .error e
    | .ok st2 => sem_pop_scope st2

/-- The declaration loop of the `TOP_GAUTO` pre-pass case
(sem_check_program, sem.c lines 539-561); size expressions are not checked
in the pre-pass. -/
def sem_prepass_gauto (st : SemState) : List DeclItem → Except SemErr SemState
  | [] => .ok st
  | item :: rest =>
    if scope_has_in_current st item.name then .error (.redeclaration item.name)
    else sem_prepass_gauto (scope_add st ⟨.symVar, item.name, false⟩) rest

/-- One iteration of the pre-pass of `sem_check_program` (sem.c lines
536-601): collect all top-level declarations without checking expressions. -/
def sem_prepass_top (st : SemState) : TopItem → Except SemErr SemState
  | .gauto s =>
    match s with
    | .autoDecl decls => sem_prepass_gauto st decls
    | _ => .error (.internal "TOP_GAUTO should be ST_AUTO")
  | .func f =>
    let st1 := push_fn_name st f.name
    if scope_has_in_current st1 f.name then .error (.redeclaration f.name)
    else .ok (scope_add st1 ⟨.symFunc, f.name, false⟩)
  | .externDef item =>
    if scope_has_in_current st item.name then
      .error (.duplicate_extern_def item.name)
    else .ok (scope_add st ⟨.symVar, item.name, true⟩)
  | .externDecl item => .ok (push_extern_name st item.name)

/-- The pre-pass loop of `sem_check_program`. -/
def sem_prepass (st : SemState) : List TopItem → Except SemErr SemState
  | [] => .ok st
  | t :: rest =>
    match sem_prepass_top st t with
    | .error e => .error e
    | .ok st1 => sem_prepass st1 rest

/-- The body pass of `sem_check_program` (sem.c lines 603-610): check every
function body, collecting implicit statics. -/
def sem_bodypass (st : SemState) : List TopItem → Except SemErr SemState
  | [] => .ok st
  | .func f :: rest =>
    match sem_check_func st f with
    | .error e => .error e
    | .ok st1 => sem_bodypass st1 rest
  | _ :: rest => sem_bodypass st rest

/-- The external definition appended for an implicit static (sem.c lines
628-641): kind Scalar, `is_implicit_static` set, no initializer. -/
def implicit_static_def (name : String) : TopItem :=
  .externDef ⟨name, true, .scalar, none, false, none⟩

/-- Whether a top-level item is an external definition or declaration with
the given name (the `already_declared` scan, sem.c lines 617-625). -/
def top_declares (name : String) : TopItem → Bool
  | .externDef item => item.name = name
  | .externDecl item => item.name = name
  | _ => false

/-- The post-pass of `sem_check_program` (sem.c lines 612-643): for each
collected implicit static, append a scalar definition unless some external
definition or declaration with that name is already present; the scan covers
items appended by earlier iterations. -/
def sem_postpass (tops : List TopItem) : List String → List TopItem
  | [] => tops
  | n :: rest =>
    let tops1 :=
      if tops.any (top_declares n) then tops else tops ++ [implicit_static_def n]
    sem_postpass tops1 rest

/-- `sem_check_program` from sem.c: pre-pass, body pass, post-pass; the
program is returned with the appended implicit-static definitions. -/
def sem_check_program (prog : Program) : Except SemErr Program :=
  match sem_prepass sem_state_new prog.tops with
  | .error e => .error e
  | .ok st1 =>
    match sem_bodypass st1 prog.tops with
    | .error e => .error e
    | .ok st2 => .ok ⟨sem_postpass prog.tops st2.implicit_statics⟩

-- ===================== Small helpers used in statements =====================

/-- The value the octal accumulation loop computes on a digit string
(each digit contributes `v*8 + digit`, digits 8 and 9 included). -/
def oct_value (ds : List Char) : Int :=
  ds.foldl (fun v d => v * 8 + ((d.toNat : Int) - 48)) 0

/-- An identifier token. -/
def idTok (s : String) : Token := ⟨.tID, s, 0⟩

/-- An operator/punctuation token. -/
def opTok (k : TokenKind) : Token := ⟨k, "", 0⟩

/-- A one-function program whose body is a single call `name();` with no
declaration of `name` anywhere. -/
def call_prog (name : String) : Program :=
  ⟨[.func ⟨"main", [], .block [.exprS (.call (.var name) [])]⟩]⟩

-- =====================================================================
-- Theorems
-- =====================================================================

theorem edge_words_child_sum_eq_sum (es : List InitNode) :
    edge_words_child_sum es = (es.map child_edge_words).sum := by
  induction es with
  | nil => rfl
  | cons e rest ih =>
    cases e with
    | initExpr e0 => simp [edge_words_child_sum, child_edge_words, ih]
    | initList es0 => simp [edge_words_child_sum, child_edge_words, ih]

/-- C1. For every initializer list: `nested_base_len` is the length, or 1 when
empty; `edge_words_total` is `nested_base_len` plus the sum of
`edge_words_total` over exactly the children that are lists; and
`edge_tail_words_top` is that same sum of child totals over the root's list
children. -/
theorem claim_c1_edge_sizing (es : List InitNode) :
    nested_base_len (.initList es) = max es.length 1
    ∧ edge_words_total (.initList es)
        = nested_base_len (.initList es) + (es.map child_edge_words).sum
    ∧ edge_tail_words_top (.initList es) = (es.map child_edge_words).sum := by
  refine ⟨?_, ?_, ?_⟩
  · cases es with
    | nil => rfl
    | cons e rest =>
      simp [nested_base_len]
  · rw [edge_words_total, edge_words_child_sum_eq_sum]
  · rw [edge_tail_words_top, edge_words_child_sum_eq_sum]

-- ===================== C4: default case encoding and dispatch =====================

/-- C4 (counterexample).  The claim asserts that at emission a `default :`
case is dispatched distinctly from a real case whose folded constant is −1.
In fact the node built by `parse_default` is dispatched by the plain equality
test `__sw == (word)-1`, and `case -1 :` builds the very same node, so the
two are indistinguishable in the emitted dispatch table. -/
theorem claim_c4_counterexample :
    dispatch_cond_of parse_default_stmt = some "__sw == (word)-1"
    ∧ parse_case_stmt (.unary .tMINUS (.num 1)) = some parse_default_stmt := by
  exact ⟨rfl, rfl⟩

/-- C4 (amended).  Parsing `default :` inside a switch produces a case node
whose low and high sentinel values are both −1; at emission this node is
dispatched by the equality test `__sw == (word)-1`, exactly as a real case
whose constant expression folds to −1 — the emitter does not distinguish
the two. -/
theorem claim_c4_amended_default_dispatch :
    parse_default_stmt = .caseS .tEOF false (-1) (-1)
    ∧ dispatch_cond_of parse_default_stmt = some ("__sw == (word)" ++ intToDec (-1))
    ∧ ∀ e, eval_const_expr e = some (-1) → parse_case_stmt e = some parse_default_stmt := by
  refine ⟨rfl, rfl, fun e he => ?_⟩
  simp [parse_case_stmt, he, parse_default_stmt]

/-- C4 (amended, witness): `case -(1) :` folds to −1 and yields the very
default node. -/
theorem claim_c4_amended_witness :
    parse_case_stmt (.unary .tMINUS (.num 1)) = some parse_default_stmt :=
  claim_c4_amended_default_dispatch.2.2 (.unary .tMINUS (.num 1)) rfl

-- ===================== C2: vector extern storage sizing =====================

/-- C2 (counterexample).  The claim says `outer_len` is the initializer
length when the vector has empty brackets; for `v[];` (empty brackets, no
initializer) the code reserves one word while the claimed formula yields
zero. -/
theorem claim_c2_counterexample :
    vector_store_total ⟨"v", false, .vector, none, true, none⟩ = 1
    ∧ vector_store_total_claim ⟨"v", false, .vector, none, true, none⟩ = some 0 := by
  exact ⟨rfl, rfl⟩

/-- C2 (amended).  For a vector external definition the emitter reserves
`__<mname>_store[outer_len + tail]` where `tail` is `edge_tail_words_top` of
the initializer, and `outer_len` is `max(initializer length, 1)` when the
vector was written with empty brackets, and otherwise (with the bound
folding to a nonnegative constant, as the parser and semantic pass deliver)
`max(folded bound + 1, initializer length)`; the reserved store is never
empty, and at init time the vector's pointer cell is set to the address of
the store's first element. -/
theorem claim_c2_amended_store_sizing (item : ExternItem) (bv : Int)
    (_hvec : item.vkind = .vector)
    (hbound : item.has_empty = false →
      item.bound.bind try_eval_const_expr = some bv ∧ 0 ≤ bv) :
    vector_store_total item
      = (if item.has_empty then max (init_list_length item.ival) 1
         else max (bv + 1).toNat (init_list_length item.ival))
        + init_tail_words item.ival
    ∧ vector_store_total item ≠ 0
    ∧ ∀ mname, (emit_init_vector item mname).head? =
        some (.setPtrToStoreBase mname ("__" ++ mname ++ "_store")) := by
  have houter : vector_outer_len item
      = (if item.has_empty then max (init_list_length item.ival) 1
         else max (bv + 1).toNat (init_list_length item.ival)) := by
    by_cases he : item.has_empty
    · simp only [vector_outer_len, he, if_true]
      split <;> omega
    · have he' : item.has_empty = false := by simpa using he
      obtain ⟨hfold, hge⟩ := hbound he'
      cases hb : item.bound with
      | none => rw [hb] at hfold; simp at hfold
      | some b =>
        rw [hb] at hfold
        simp only [Option.some_bind] at hfold
        simp only [vector_outer_len, he', hb, hfold, Bool.false_eq_true, if_false]
        have hnn : ¬ bv < 0 := by omega
        simp only [hnn, if_false]
        split <;> omega
  have hrhs_pos : 1 ≤ (if item.has_empty then max (init_list_length item.ival) 1
      else max (bv + 1).toNat (init_list_length item.ival)) := by
    by_cases he : item.has_empty
    · simp only [he, if_true]
      omega
    · have he' : item.has_empty = false := by simpa using he
      obtain ⟨_, hge⟩ := hbound he'
      simp only [he', Bool.false_eq_true, if_false]
      omega
  have houter_pos : 1 ≤ vector_outer_len item := houter ▸ hrhs_pos
  have hT : vector_store_total item
      = vector_outer_len item + init_tail_words item.ival := by
    simp only [vector_store_total]
    split
    · omega
    · rfl
  refine ⟨?_, ?_, ?_⟩
  · rw [hT, houter]
  · rw [hT]
    omega
  · intro mname
    simp [emit_init_vector]

/-- C2 (amended, witness): the spec's scenario `v[2] 10, 20, {1, 2, 3};`
reserves a 6-word store (outer 3 + tail 3), and its init sequence starts by
pointing `v` at the store base. -/
theorem claim_c2_amended_witness :
    vector_store_total
        ⟨"v", false, .vector, some (.num 2), false,
          some (.initList [.initExpr (.num 10), .initExpr (.num 20),
            .initList [.initExpr (.num 1), .initExpr (.num 2), .initExpr (.num 3)]])⟩
      = 6
    ∧ (emit_init_vector
        ⟨"v", false, .vector, some (.num 2), false,
          some (.initList [.initExpr (.num 10), .initExpr (.num 20),
            .initList [.initExpr (.num 1), .initExpr (.num 2), .initExpr (.num 3)]])⟩
        "v").head? = some (.setPtrToStoreBase "v" "__v_store") := by
  have h := claim_c2_amended_store_sizing
    ⟨"v", false, .vector, some (.num 2), false,
      some (.initList [.initExpr (.num 10), .initExpr (.num 20),
        .initList [.initExpr (.num 1), .initExpr (.num 2), .initExpr (.num 3)]])⟩
    2 rfl (fun _ => ⟨rfl, by decide⟩)
  refine ⟨h.1.trans (by decide), h.2.2 "v"⟩

-- ===================== C7: number lexing =====================

/-- Helper: `takeWhile`/`dropWhile` split an input at the first character
failing the predicate. -/
theorem lx_takeWhile_all {p : Char → Bool} :
    ∀ (ds rest : List Char), (∀ d ∈ ds, p d = true) →
      (∀ r, rest.head? = some r → p r = false) →
      (ds ++ rest).takeWhile p = ds ∧ (ds ++ rest).dropWhile p = rest := by
  intro ds
  induction ds with
  | nil =>
    intro rest _ h2
    cases rest with
    | nil => simp
    | cons r rr =>
      have := h2 r rfl
      simp [List.takeWhile_cons, List.dropWhile_cons, this]
  | cons d ds ih =>
    intro rest h1 h2
    have hd : p d = true := h1 d (List.mem_cons_self d ds)
    have ih' := ih rest (fun x hx => h1 x (List.mem_cons_of_mem d hx)) h2
    simp [List.takeWhile_cons, List.dropWhile_cons, hd, ih'.1, ih'.2]

/-- Helper: on a string of decimal digits the octal loop never hits its
`bad octal digit` branch and computes the plain left fold. -/
theorem octal_fold_all :
    ∀ (ds : List Char) (v : Int), (∀ d ∈ ds, is_digit_ch d = true) →
      ds.foldlM
        (fun v d =>
          if is_digit_ch d then some (v * 8 + ((d.toNat : Int) - 48)) else none)
        v
      = some (ds.foldl (fun v d => v * 8 + ((d.toNat : Int) - 48)) v) := by
  intro ds
  induction ds with
  | nil => intro v _; rfl
  | cons d ds ih =>
    intro v h
    have hd : is_digit_ch d = true := h d (List.mem_cons_self d ds)
    simp only [List.foldlM_cons, hd, if_true, List.foldl_cons]
    exact ih _ (fun x hx => h x (List.mem_cons_of_mem d hx))

/-- C7.  A numeric literal beginning with `0` is read in base 8 with every
decimal digit 0..9 (including 8 and 9) accepted at value `digit * 8^position`
and only a non-digit ending the literal, never an `ex` diagnostic; a literal
not beginning with `0` is read in base 10 (within `long` range); and the
literal `09` lexes to the value 9. -/
theorem claim_c7_number_lexing :
    (∀ ds rest, (∀ d ∈ ds, is_digit_ch d = true) →
        (∀ r, rest.head? = some r → is_digit_ch r = false) →
        lx_number (('0' :: ds) ++ rest) = some (oct_value ('0' :: ds), rest))
  ∧ (∀ c ds rest, is_digit_ch c = true → c ≠ '0' →
        (∀ d ∈ ds, is_digit_ch d = true) →
        (∀ r, rest.head? = some r → is_digit_ch r = false) →
        dec_value (c :: ds) ≤ LONG_MAX →
        lx_number ((c :: ds) ++ rest) = some (dec_value (c :: ds), rest))
  ∧ lx_number ['0', '9'] = some (9, []) := by
  refine ⟨?_, ?_, by decide⟩
  · intro ds rest hds hrest
    have hall : ∀ d ∈ ('0' :: ds), is_digit_ch d = true := by
      intro d hd
      rcases List.mem_cons.mp hd with h | h
      · subst h; decide
      · exact hds d h
    obtain ⟨htake, hdrop⟩ := lx_takeWhile_all ('0' :: ds) rest hall hrest
    simp only [List.cons_append] at htake hdrop
    simp only [List.cons_append, lx_number]
    rw [htake, hdrop]
    have hov : octal_value_checked ('0' :: ds) = some (oct_value ('0' :: ds)) :=
      octal_fold_all ('0' :: ds) 0 hall
    have h0 : is_digit_ch '0' = true := by decide
    simp [h0, hov]
  · intro c ds rest hc hc0 hds hrest hrange
    have hall : ∀ d ∈ (c :: ds), is_digit_ch d = true := by
      intro d hd
      rcases List.mem_cons.mp hd with h | h
      · subst h; exact hc
      · exact hds d h
    obtain ⟨htake, hdrop⟩ := lx_takeWhile_all (c :: ds) rest hall hrest
    simp only [List.cons_append] at htake hdrop
    simp only [List.cons_append, lx_number, hc, if_true]
    rw [htake, hdrop]
    simp [hc0, hrange]

/-- C7 (witness): `08` lexes as octal digits to 8 and `42` as decimal to 42. -/
theorem claim_c7_witness :
    lx_number ['0', '8'] = some (8, []) ∧ lx_number ['4', '2'] = some (42, []) := by
  have h := claim_c7_number_lexing
  constructor
  · have h1 := h.1 ['8'] [] (by decide) (by simp)
    simpa using h1.trans (by decide)
  · have h2 := h.2.1 '4' ['2'] [] (by decide) (by decide) (by decide) (by simp)
      (by decide)
    simpa using h2.trans (by decide)

-- ===================== C8: operator precedence =====================

/-- C8.  In the expression grammar the multiplicative operators `* / %`
(precedence 6) bind less tightly than bitwise OR `|` (7), which binds less
tightly than bitwise AND `&` (8): `a * b | c` parses as `a * (b | c)` and
`a | b & c` parses as `a | (b & c)`. -/
theorem claim_c8_precedence :
    (precedence .tSTAR < precedence .tBAR
      ∧ precedence .tBAR < precedence .tAMP
      ∧ precedence .tSLASH = precedence .tSTAR
      ∧ precedence .tPERCENT = precedence .tSTAR)
    ∧ (∀ a b c : String,
        parse_expr 32 [idTok a, opTok .tSTAR, idTok b, opTok .tBAR, idTok c]
          = some (.bin .tSTAR (.var a) (.bin .tBAR (.var b) (.var c)), []))
    ∧ (∀ a b c : String,
        parse_expr 32 [idTok a, opTok .tBAR, idTok b, opTok .tAMP, idTok c]
          = some (.bin .tBAR (.var a) (.bin .tAMP (.var b) (.var c)), [])) := by
  exact ⟨by decide, fun a b c => rfl, fun a b c => rfl⟩

-- ===================== C10: empty character constant =====================

/-- Helper: a quote ends the character constant immediately. -/
theorem charconst_loop_quote (rest : List Char) (acc : List Nat) :
    lx_charconst_loop (quote_ch :: rest) acc = some (acc, rest) := by
  rw [lx_charconst_loop.eq_def]
  dsimp only
  rw [if_pos rfl]

/-- Helper: an ordinary character is collected when fewer than four bytes
have been packed. -/
theorem charconst_loop_step (c : Char) (cs : List Char) (acc : List Nat)
    (h1 : c ≠ quote_ch) (h2 : c ≠ '*') (h3 : acc.length < 4) :
    lx_charconst_loop (c :: cs) acc = lx_charconst_loop cs (acc ++ [c.toNat % 256]) := by
  rw [lx_charconst_loop.eq_def]
  dsimp only
  rw [if_neg h1, if_neg (by omega), if_neg h2]

/-- Helper: a fifth (non-quote) character is the `character constant too
long` diagnostic. -/
theorem charconst_loop_overflow (c : Char) (cs : List Char) (acc : List Nat)
    (h1 : c ≠ quote_ch) (h2 : 4 ≤ acc.length) :
    lx_charconst_loop (c :: cs) acc = none := by
  rw [lx_charconst_loop.eq_def]
  dsimp only
  rw [if_neg h1, if_pos h2]

/-- Helper: up to four plain characters before the closing quote are all
collected. -/
theorem charconst_loop_plain :
    ∀ (cs : List Char) (acc : List Nat) (rest : List Char),
      acc.length + cs.length ≤ 4 →
      (∀ c ∈ cs, c ≠ quote_ch ∧ c ≠ '*') →
      lx_charconst_loop (cs ++ quote_ch :: rest) acc
        = some (acc ++ cs.map (fun c => c.toNat % 256), rest) := by
  intro cs
  induction cs with
  | nil =>
    intro acc rest _ _
    simp [charconst_loop_quote]
  | cons c cs ih =>
    intro acc rest hlen hplain
    have hc := hplain c (List.mem_cons_self c cs)
    have hstep := charconst_loop_step c (cs ++ quote_ch :: rest) acc hc.1 hc.2
      (by simp at hlen; omega)
    rw [List.cons_append, hstep,
      ih (acc ++ [c.toNat % 256]) rest (by simp at hlen ⊢; omega)
        (fun x hx => hplain x (List.mem_cons_of_mem c hx))]
    simp

/-- C10.  Lexing the empty character constant `''` succeeds with no
diagnostic and produces the character-word token value 0, which the parser
turns into the number expression 0; any constant of up to four (plain)
characters lexes to their packed word, and only a fifth character inside the
constant is the too-long diagnostic. -/
theorem claim_c10_empty_char_constant :
    lx_charconst [quote_ch] = some (0, [])
  ∧ (∀ rest, lx_charconst (quote_ch :: rest) = some (0, rest))
  ∧ (∀ ts : List Token, parse_primary 2 (⟨.tCHR, "", 0⟩ :: ts) = some (.num 0, ts))
  ∧ (∀ cs rest, cs.length ≤ 4 → (∀ c ∈ cs, c ≠ quote_ch ∧ c ≠ '*') →
      lx_charconst (cs ++ quote_ch :: rest)
        = some (pack_chars (cs.map (fun c => c.toNat % 256)), rest))
  ∧ (∀ c1 c2 c3 c4 c5 rest,
      (∀ c ∈ [c1, c2, c3, c4, c5], c ≠ quote_ch ∧ c ≠ '*') →
      lx_charconst (c1 :: c2 :: c3 :: c4 :: c5 :: rest) = none) := by
  have hp0 : pack_chars [] = 0 := by decide
  refine ⟨by decide, ?_, fun ts => rfl, ?_, ?_⟩
  · intro rest
    rw [lx_charconst, charconst_loop_quote]
    simp [hp0]
  · intro cs rest hlen hplain
    rw [lx_charconst, charconst_loop_plain cs [] rest (by simpa using hlen) hplain]
    simp
  · intro c1 c2 c3 c4 c5 rest hplain
    have h1 := hplain c1 (by simp)
    have h2 := hplain c2 (by simp)
    have h3 := hplain c3 (by simp)
    have h4 := hplain c4 (by simp)
    have h5 := hplain c5 (by simp)
    rw [lx_charconst,
      charconst_loop_step c1 _ [] h1.1 h1.2 (by simp),
      charconst_loop_step c2 _ _ h2.1 h2.2 (by simp),
      charconst_loop_step c3 _ _ h3.1 h3.2 (by simp),
      charconst_loop_step c4 _ _ h4.1 h4.2 (by simp),
      charconst_loop_overflow c5 _ _ h5.1 (by simp)]
    rfl

/-- C10 (witness): `'ab'` packs to 0x6261 = 25185 with `a` in the low byte,
and a five-character constant is rejected. -/
theorem claim_c10_witness :
    lx_charconst ['a', 'b', quote_ch] = some (25185, [])
    ∧ lx_charconst ['a', 'b', 'c', 'd', 'e'] = none := by
  have h := claim_c10_empty_char_constant
  constructor
  · have h4 := h.2.2.2.1 ['a', 'b'] [] (by decide) (by decide)
    simpa using h4.trans (by decide)
  · exact h.2.2.2.2 'a' 'b' 'c' 'd' 'e' [] (by decide)

-- ===================== C6: the vector-bound constant folder =====================

/-- C6.  The emitter's constant folder (used for vector bounds) folds
numeric literals; unary minus and logical not; `+ - *` with wrap-on-overflow
(the result is congruent to the exact value modulo 2^64 and lies in the
signed 64-bit range); `/` and `%` (C truncated division); bitwise `&` and
`|`; the relational operators; and the comma operator by folding the right
operand once the left folds.  Whenever the divisor or modulus folds to zero
the fold yields no value. -/
theorem claim_c6_const_folder :
    (∀ n : Int, try_eval_const_expr (.num n) = some n)
  ∧ (∀ e v, try_eval_const_expr e = some v →
      try_eval_const_expr (.unary .tMINUS e) = some (-v)
      ∧ try_eval_const_expr (.unary .tBANG e) = some (if v = 0 then 1 else 0))
  ∧ (∀ a b x y, try_eval_const_expr a = some x → try_eval_const_expr b = some y →
      (∃ z, try_eval_const_expr (.bin .tPLUS a b) = some z
        ∧ z % 18446744073709551616 = (x + y) % 18446744073709551616
        ∧ -9223372036854775808 ≤ z ∧ z < 9223372036854775808)
      ∧ (∃ z, try_eval_const_expr (.bin .tMINUS a b) = some z
        ∧ z % 18446744073709551616 = (x - y) % 18446744073709551616
        ∧ -9223372036854775808 ≤ z ∧ z < 9223372036854775808)
      ∧ (∃ z, try_eval_const_expr (.bin .tSTAR a b) = some z
        ∧ z % 18446744073709551616 = (x * y) % 18446744073709551616
        ∧ -9223372036854775808 ≤ z ∧ z < 9223372036854775808)
      ∧ (y ≠ 0 → try_eval_const_expr (.bin .tSLASH a b) = some (Int.tdiv x y)
          ∧ try_eval_const_expr (.bin .tPERCENT a b) = some (Int.tmod x y))
      ∧ try_eval_const_expr (.bin .tAMP a b) = some (Int.land x y)
      ∧ try_eval_const_expr (.bin .tBAR a b) = some (Int.lor x y)
      ∧ try_eval_const_expr (.bin .tLT a b) = some (if x < y then 1 else 0)
      ∧ try_eval_const_expr (.bin .tLE a b) = some (if x ≤ y then 1 else 0)
      ∧ try_eval_const_expr (.bin .tGT a b) = some (if y < x then 1 else 0)
      ∧ try_eval_const_expr (.bin .tGE a b) = some (if y ≤ x then 1 else 0)
      ∧ try_eval_const_expr (.bin .tEQ a b) = some (if x = y then 1 else 0)
      ∧ try_eval_const_expr (.bin .tNE a b) = some (if x = y then 0 else 1)
      ∧ try_eval_const_expr (.comma a b) = try_eval_const_expr b)
  ∧ (∀ a b, try_eval_const_expr b = some 0 →
      try_eval_const_expr (.bin .tSLASH a b) = none
      ∧ try_eval_const_expr (.bin .tPERCENT a b) = none) := by
  refine ⟨fun n => rfl, ?_, ?_, ?_⟩
  · intro e v he
    constructor <;> simp [try_eval_const_expr, he]
  · intro a b x y ha hb
    have hwrap : ∀ w : Int,
        wrap64 w % 18446744073709551616 = w % 18446744073709551616
        ∧ -9223372036854775808 ≤ wrap64 w ∧ wrap64 w < 9223372036854775808 := by
      intro w
      unfold wrap64
      omega
    refine ⟨⟨wrap64 (x + y), ?_, (hwrap _).1, (hwrap _).2.1, (hwrap _).2.2⟩,
      ⟨wrap64 (x - y), ?_, (hwrap _).1, (hwrap _).2.1, (hwrap _).2.2⟩,
      ⟨wrap64 (x * y), ?_, (hwrap _).1, (hwrap _).2.1, (hwrap _).2.2⟩,
      ?_, ?_, ?_, ?_, ?_, ?_, ?_, ?_, ?_, ?_⟩ <;>
      simp [try_eval_const_expr, ha, hb]
  · intro a b hb
    cases hA : try_eval_const_expr a with
    | none => constructor <;> simp [try_eval_const_expr, hA]
    | some x => constructor <;> simp [try_eval_const_expr, hA, hb]

/-- C6 (witness): division and modulus by a zero constant fail; `LONG_MAX + 1`
wraps to `LONG_MIN`; `7 / 2` folds to 3. -/
theorem claim_c6_witness :
    try_eval_const_expr (.bin .tSLASH (.num 7) (.num 0)) = none
    ∧ try_eval_const_expr (.bin .tPERCENT (.num 7) (.num 0)) = none
    ∧ try_eval_const_expr (.bin .tPLUS (.num 9223372036854775807) (.num 1))
        = some (-9223372036854775808)
    ∧ try_eval_const_expr (.bin .tSLASH (.num 7) (.num 2)) = some 3 := by
  have h := claim_c6_const_folder
  refine ⟨(h.2.2.2 (.num 7) (.num 0) rfl).1, (h.2.2.2 (.num 7) (.num 0) rfl).2, ?_, ?_⟩
  · obtain ⟨z, hz, hm, hlo, hhi⟩ :=
      (h.2.2.1 (.num 9223372036854775807) (.num 1) 9223372036854775807 1 rfl rfl).1
    have hzv : z = -9223372036854775808 := by omega
    rw [hz, hzv]
  · have h4 := ((h.2.2.1 (.num 7) (.num 2) 7 2 rfl rfl).2.2.2.1 (by decide)).1
    exact h4.trans (by decide)

-- ===================== C5: builtin seed list =====================

/-- C5 (counterexample).  The claim's seed list includes `abort`, `free` and
`usleep`, but the builtin table installed by `sem_add_builtin_functions`
contains none of them: an undeclared call to `abort` is rejected with the
`un` (undefined name) diagnostic instead of resolving. -/
theorem claim_c5_counterexample :
    sem_check_program (call_prog "abort") = .error (.undefined_name "abort")
    ∧ "abort" ∉ builtins ∧ "free" ∉ builtins ∧ "usleep" ∉ builtins := by
  refine ⟨rfl, by decide, by decide, by decide⟩

/-- C5 (amended).  Before any function body is checked, every name in the
builtin table actually seeded by `sem_add_builtin_functions` — the claim's
list without `abort`, `free` and `usleep`, and with `creat`, `seek`, `openr`
and `openw` — is pre-installed as a function symbol in the global scope, and
a program calling it with no declaration passes semantic analysis with no
`un` diagnostic. -/
theorem claim_c5_amended_builtins :
    ∀ name ∈ builtins,
      ((scope_find sem_state_new.scopes name).map BSymbol.kind = some .symFunc)
      ∧ (sem_check_program (call_prog name)).isOk = true := by
  decide

/-- C5 (amended, witness): `printf` resolves as a pre-installed function. -/
theorem claim_c5_amended_witness :
    ((scope_find sem_state_new.scopes "printf").map BSymbol.kind = some .symFunc)
    ∧ (sem_check_program (call_prog "printf")).isOk = true :=
  claim_c5_amended_builtins "printf" (by decide)

-- ===================== C3: implicit-static post-pass =====================
/-- Helper: a guarded push keeps the implicit-statics list duplicate-free. -/
theorem push_implicit_preserves_nodup (st : SemState) (n : String)
    (hn : st.implicit_statics.Nodup)
    (hmem : is_implicit_static_name st n = false) :
    (push_implicit st n).implicit_statics.Nodup := by
  have hnotin : n ∉ st.implicit_statics := by
    intro hm
    rw [is_implicit_static_name] at hmem
    simp_all
  simp [push_implicit, List.nodup_append, hn, hnotin]

/-- Helper: adding a symbol to the current scope leaves the
implicit-statics list unchanged. -/
theorem scope_add_implicit (st : SemState) (sym : BSymbol) :
    (scope_add st sym).implicit_statics = st.implicit_statics := by
  rw [scope_add]
  cases st.scopes <;> rfl

/-- Helper: pushing a scope leaves the implicit-statics list unchanged. -/
theorem sem_push_scope_implicit (st : SemState) :
    (sem_push_scope st).implicit_statics = st.implicit_statics := rfl

/-- Helper: popping a scope leaves the implicit-statics list unchanged. -/
theorem sem_pop_scope_implicit (st st' : SemState)
    (h : sem_pop_scope st = .ok st') :
    st'.implicit_statics = st.implicit_statics := by
  rw [sem_pop_scope] at h
  rcases hs : st.scopes with _ | ⟨s, rest⟩
  · rw [hs] at h; cases h
  · rcases rest with _ | ⟨s2, rest2⟩
    · rw [hs] at h; cases h
    · rw [hs] at h
      obtain rfl := Except.ok.inj h
      rfl

/-- Helper: recording `extrn` names leaves the implicit-statics list
unchanged. -/
theorem sem_record_extrn_names_implicit (ns : List String) :
    ∀ (st : SemState),
      (sem_record_extrn_names st ns).implicit_statics = st.implicit_statics := by
  induction ns with
  | nil => intro st; rfl
  | cons n rest ih =>
    intro st
    rw [sem_record_extrn_names]
    rw [ih]
    by_cases h : is_extern_name st n <;> simp [h, push_extern_name]

mutual

/-- Helper: lvalue checking preserves duplicate-freeness of the
implicit-statics list (every push is guarded). -/
theorem sem_check_lvalue_nodup : ∀ (e : Expr) (st st' : SemState),
    sem_check_lvalue st e = .ok st' → st.implicit_statics.Nodup →
    st'.implicit_statics.Nodup
  | .var name, st, st', h, hn => by
    simp only [sem_check_lvalue] at h
    cases hf : scope_find st.scopes name with
    | some sym =>
      rw [hf] at h
      dsimp only at h
      by_cases hk : sym.kind = .symVar
      · rw [if_pos hk] at h; obtain rfl := Except.ok.inj h; exact hn
      · rw [if_neg hk] at h; cases h
    | none =>
      rw [hf] at h
      by_cases hi : (is_extern_name st name || is_implicit_static_name st name)
      · rw [if_pos hi] at h; obtain rfl := Except.ok.inj h; exact hn
      · rw [if_neg hi] at h
        obtain rfl := Except.ok.inj h
        have hb : is_implicit_static_name st name = false := by
          rcases Bool.or_eq_false_iff.mp (Bool.eq_false_iff.mpr hi) with ⟨_, h2⟩
          exact h2
        exact push_implicit_preserves_nodup st name hn hb
  | .index base idx, st, st', h, hn => by
    simp only [sem_check_lvalue] at h
    cases hb : sem_check_lvalue st base with
    | error e => rw [hb] at h; cases h
    | ok st1 =>
      rw [hb] at h
      exact sem_check_expr_nodup idx st1 st' h
        (sem_check_lvalue_nodup base st st1 hb hn)
  | .unary op rhs, st, st', h, hn => by
    simp only [sem_check_lvalue] at h
    by_cases hop : op = .tSTAR
    · rw [if_pos hop] at h
      exact sem_check_expr_nodup rhs st st' h hn
    · rw [if_neg hop] at h; cases h
  | .num _, st, st', h, hn => by simp [sem_check_lvalue] at h
  | .str _, st, st', h, hn => by simp [sem_check_lvalue] at h
  | .call c a, st, st', h, hn => by simp [sem_check_lvalue] at h
  | .post _ _, st, st', h, hn => by simp [sem_check_lvalue] at h
  | .bin _ _ _, st, st', h, hn => by simp [sem_check_lvalue] at h
  | .assign _ _ _, st, st', h, hn => by simp [sem_check_lvalue] at h
  | .ternary _ _ _, st, st', h, hn => by simp [sem_check_lvalue] at h
  | .comma _ _, st, st', h, hn => by simp [sem_check_lvalue] at h

/-- Helper: expression checking preserves duplicate-freeness of the
implicit-statics list. -/
theorem sem_check_expr_nodup : ∀ (e : Expr) (st st' : SemState),
    sem_check_expr st e = .ok st' → st.implicit_statics.Nodup →
    st'.implicit_statics.Nodup
  | .num _, st, st', h, hn => by
    simp only [sem_check_expr] at h
    obtain rfl := Except.ok.inj h; exact hn
  | .str _, st, st', h, hn => by
    simp only [sem_check_expr] at h
    obtain rfl := Except.ok.inj h; exact hn
  | .var name, st, st', h, hn => by
    simp only [sem_check_expr] at h
    cases hf : scope_find st.scopes name with
    | some sym => rw [hf] at h; obtain rfl := Except.ok.inj h; exact hn
    | none =>
      rw [hf] at h
      by_cases hi : (is_extern_name st name || is_implicit_static_name st name)
      · rw [if_pos hi] at h; obtain rfl := Except.ok.inj h; exact hn
      · rw [if_neg hi] at h
        obtain rfl := Except.ok.inj h
        have hb : is_implicit_static_name st name = false := by
          rcases Bool.or_eq_false_iff.mp (Bool.eq_false_iff.mpr hi) with ⟨_, h2⟩
          exact h2
        exact push_implicit_preserves_nodup st name hn hb
  | .call callee args, st, st', h, hn => by
    cases callee with
    | var fname =>
      simp only [sem_check_expr] at h
      cases hf : scope_find st.scopes fname with
      | none =>
        rw [hf] at h
        by_cases hi : (is_function_name st fname || is_extern_name st fname)
        · rw [if_pos hi] at h
          exact sem_check_expr_list_nodup args st st' h hn
        · rw [if_neg hi] at h; cases h
      | some sym =>
        rw [hf] at h
        dsimp only at h
        by_cases hk : (sym.kind = .symVar ∨ sym.kind = .symFunc)
        · rw [if_pos hk] at h
          exact sem_check_expr_list_nodup args st st' h hn
        · rw [if_neg hk] at h; cases h
    | num n =>
      simp only [sem_check_expr] at h
      exact sem_check_expr_list_nodup args st st' h hn
    | str s =>
      simp only [sem_check_expr] at h
      exact sem_check_expr_list_nodup args st st' h hn
    | call c2 a2 =>
      have h2 : (match sem_check_expr st (.call c2 a2) with
          | .error e => Except.error e
          | .ok st1 => sem_check_expr_list st1 args) = .ok st' := h
      cases hc : sem_check_expr st (.call c2 a2) with
      | error e => rw [hc] at h2; cases h2
      | ok st1 =>
        rw [hc] at h2
        exact sem_check_expr_list_nodup args st1 st' h2
          (sem_check_expr_nodup (.call c2 a2) st st1 hc hn)
    | index b i =>
      have h2 : (match sem_check_expr st (.index b i) with
          | .error e => Except.error e
          | .ok st1 => sem_check_expr_list st1 args) = .ok st' := h
      cases hc : sem_check_expr st (.index b i) with
      | error e => rw [hc] at h2; cases h2
      | ok st1 =>
        rw [hc] at h2
        exact sem_check_expr_list_nodup args st1 st' h2
          (sem_check_expr_nodup (.index b i) st st1 hc hn)
    | unary op rhs =>
      have h2 : (match sem_check_expr st (.unary op rhs) with
          | .error e => Except.error e
          | .ok st1 => sem_check_expr_list st1 args) = .ok st' := h
      cases hc : sem_check_expr st (.unary op rhs) with
      | error e => rw [hc] at h2; cases h2
      | ok st1 =>
        rw [hc] at h2
        exact sem_check_expr_list_nodup args st1 st' h2
          (sem_check_expr_nodup (.unary op rhs) st st1 hc hn)
    | post op lhs =>
      have h2 : (match sem_check_expr st (.post op lhs) with
          | .error e => Except.error e
          | .ok st1 => sem_check_expr_list st1 args) = .ok st' := h
      cases hc : sem_check_expr st (.post op lhs) with
      | error e => rw [hc] at h2; cases h2
      | ok st1 =>
        rw [hc] at h2
        exact sem_check_expr_list_nodup args st1 st' h2
          (sem_check_expr_nodup (.post op lhs) st st1 hc hn)
    | bin op l r =>
      have h2 : (match sem_check_expr st (.bin op l r) with
          | .error e => Except.error e
          | .ok st1 => sem_check_expr_list st1 args) = .ok st' := h
      cases hc : sem_check_expr st (.bin op l r) with
      | error e => rw [hc] at h2; cases h2
      | ok st1 =>
        rw [hc] at h2
        exact sem_check_expr_list_nodup args st1 st' h2
          (sem_check_expr_nodup (.bin op l r) st st1 hc hn)
    | assign op l r =>
      have h2 : (match sem_check_expr st (.assign op l r) with
          | .error e => Except.error e
          | .ok st1 => sem_check_expr_list st1 args) = .ok st' := h
      cases hc : sem_check_expr st (.assign op l r) with
      | error e => rw [hc] at h2; cases h2
      | ok st1 =>
        rw [hc] at h2
        exact sem_check_expr_list_nodup args st1 st' h2
          (sem_check_expr_nodup (.assign op l r) st st1 hc hn)
    | ternary c t f =>
      have h2 : (match sem_check_expr st (.ternary c t f) with
          | .error e => Except.error e
          | .ok st1 => sem_check_expr_list st1 args) = .ok st' := h
      cases hc : sem_check_expr st (.ternary c t f) with
      | error e => rw [hc] at h2; cases h2
      | ok st1 =>
        rw [hc] at h2
        exact sem_check_expr_list_nodup args st1 st' h2
          (sem_check_expr_nodup (.ternary c t f) st st1 hc hn)
    | comma l r =>
      have h2 : (match sem_check_expr st (.comma l r) with
          | .error e => Except.error e
          | .ok st1 => sem_check_expr_list st1 args) = .ok st' := h
      cases hc : sem_check_expr st (.comma l r) with
      | error e => rw [hc] at h2; cases h2
      | ok st1 =>
        rw [hc] at h2
        exact sem_check_expr_list_nodup args st1 st' h2
          (sem_check_expr_nodup (.comma l r) st st1 hc hn)
  | .index base idx, st, st', h, hn => by
    simp only [sem_check_expr] at h
    cases hb : sem_check_expr st base with
    | error e => rw [hb] at h; cases h
    | ok st1 =>
      rw [hb] at h
      exact sem_check_expr_nodup idx st1 st' h
        (sem_check_expr_nodup base st st1 hb hn)
  | .unary op rhs, st, st', h, hn => by
    simp only [sem_check_expr] at h
    by_cases hop : (op = .tPLUSPLUS ∨ op = .tMINUSMINUS)
    · rw [if_pos hop] at h
      exact sem_check_lvalue_nodup rhs st st' h hn
    · rw [if_neg hop] at h
      exact sem_check_expr_nodup rhs st st' h hn
  | .bin op l r, st, st', h, hn => by
    simp only [sem_check_expr] at h
    cases hl : sem_check_expr st l with
    | error e => rw [hl] at h; cases h
    | ok st1 =>
      rw [hl] at h
      exact sem_check_expr_nodup r st1 st' h (sem_check_expr_nodup l st st1 hl hn)
  | .assign op l r, st, st', h, hn => by
    simp only [sem_check_expr] at h
    cases hl : sem_check_lvalue st l with
    | error e => rw [hl] at h; cases h
    | ok st1 =>
      rw [hl] at h
      exact sem_check_expr_nodup r st1 st' h (sem_check_lvalue_nodup l st st1 hl hn)
  | .comma l r, st, st', h, hn => by
    simp only [sem_check_expr] at h
    cases hl : sem_check_expr st l with
    | error e => rw [hl] at h; cases h
    | ok st1 =>
      rw [hl] at h
      exact sem_check_expr_nodup r st1 st' h (sem_check_expr_nodup l st st1 hl hn)
  | .ternary c t f, st, st', h, hn => by
    simp only [sem_check_expr] at h
    cases hc : sem_check_expr st c with
    | error e => rw [hc] at h; cases h
    | ok st1 =>
      rw [hc] at h
      dsimp only at h
      cases ht : sem_check_expr st1 t with
      | error e => rw [ht] at h; cases h
      | ok st2 =>
        rw [ht] at h
        exact sem_check_expr_nodup f st2 st' h
          (sem_check_expr_nodup t st1 st2 ht (sem_check_expr_nodup c st st1 hc hn))
  | .post op lhs, st, st', h, hn => by
    simp only [sem_check_expr] at h
    exact sem_check_lvalue_nodup lhs st st' h hn

/-- Helper: argument-list checking preserves duplicate-freeness of the
implicit-statics list. -/
theorem sem_check_expr_list_nodup : ∀ (es : List Expr) (st st' : SemState),
    sem_check_expr_list st es = .ok st' → st.implicit_statics.Nodup →
    st'.implicit_statics.Nodup
  | [], st, st', h, hn => by
    simp only [sem_check_expr_list] at h
    obtain rfl := Except.ok.inj h; exact hn
  | e :: rest, st, st', h, hn => by
    simp only [sem_check_expr_list] at h
    cases he : sem_check_expr st e with
    | error err => rw [he] at h; cases h
    | ok st1 =>
      rw [he] at h
      exact sem_check_expr_list_nodup rest st1 st' h
        (sem_check_expr_nodup e st st1 he hn)

end

/-- Helper: `auto` declaration checking preserves duplicate-freeness of
the implicit-statics list. -/
theorem sem_check_auto_decls_nodup : ∀ (ds : List DeclItem) (st st' : SemState),
    sem_check_auto_decls st ds = .ok st' → st.implicit_statics.Nodup →
    st'.implicit_statics.Nodup
  | [], st, st', h, hn => by
    simp only [sem_check_auto_decls] at h
    obtain rfl := Except.ok.inj h; exact hn
  | item :: rest, st, st', h, hn => by
    simp only [sem_check_auto_decls] at h
    by_cases hd : scope_has_in_current st item.name
    · rw [if_pos hd] at h; cases h
    · rw [if_neg hd] at h
      cases hsz : item.size with
      | some sz =>
        rw [hsz] at h
        dsimp only at h
        cases he : sem_check_expr (scope_add st ⟨.symVar, item.name, false⟩) sz with
        | error e => rw [he] at h; cases h
        | ok st2 =>
          rw [he] at h
          refine sem_check_auto_decls_nodup rest st2 st' h ?_
          refine sem_check_expr_nodup sz _ st2 he ?_
          rw [scope_add_implicit]
          exact hn
      | none =>
        rw [hsz] at h
        dsimp only at h
        refine sem_check_auto_decls_nodup rest _ st' h ?_
        rw [scope_add_implicit]
        exact hn

mutual

/-- Helper: statement checking preserves duplicate-freeness of the
implicit-statics list. -/
theorem sem_check_stmt_nodup : ∀ (s : Stmt) (st st' : SemState),
    sem_check_stmt st s = .ok st' → st.implicit_statics.Nodup →
    st'.implicit_statics.Nodup
  | .empty, st, st', h, hn => by
    simp only [sem_check_stmt] at h
    obtain rfl := Except.ok.inj h; exact hn
  | .block items, st, st', h, hn => by
    simp only [sem_check_stmt] at h
    cases hl : sem_check_stmt_list (sem_push_scope st) items with
    | error e => rw [hl] at h; cases h
    | ok st1 =>
      rw [hl] at h
      have h1 : st1.implicit_statics.Nodup := by
        refine sem_check_stmt_list_nodup items _ st1 hl ?_
        rw [sem_push_scope_implicit]
        exact hn
      rw [sem_pop_scope_implicit st1 st' h]
      exact h1
  | .autoDecl decls, st, st', h, hn => by
    simp only [sem_check_stmt] at h
    exact sem_check_auto_decls_nodup decls st st' h hn
  | .ifS cond then_s else_s, st, st', h, hn => by
    simp only [sem_check_stmt] at h
    cases hc : sem_check_expr st cond with
    | error e => rw [hc] at h; cases h
    | ok st1 =>
      rw [hc] at h
      dsimp only at h
      cases ht : sem_check_stmt st1 then_s with
      | error e => rw [ht] at h; cases h
      | ok st2 =>
        rw [ht] at h
        dsimp only at h
        have hnd2 : st2.implicit_statics.Nodup :=
          sem_check_stmt_nodup then_s st1 st2 ht
            (sem_check_expr_nodup cond st st1 hc hn)
        cases hel : else_s with
        | some s =>
          rw [hel] at h
          simp only [sem_check_else] at h
          exact sem_check_stmt_nodup s st2 st' h hnd2
        | none =>
          rw [hel] at h
          simp only [sem_check_else] at h
          obtain rfl := Except.ok.inj h; exact hnd2
  | .whileS cond body, st, st', h, hn => by
    simp only [sem_check_stmt] at h
    cases hc : sem_check_expr st cond with
    | error e => rw [hc] at h; cases h
    | ok st1 =>
      rw [hc] at h
      exact sem_check_stmt_nodup body st1 st' h
        (sem_check_expr_nodup cond st st1 hc hn)
  | .ret val, st, st', h, hn => by
    simp only [sem_check_stmt] at h
    cases hv : val with
    | some v =>
      rw [hv] at h
      exact sem_check_expr_nodup v st st' h hn
    | none =>
      rw [hv] at h
      obtain rfl := Except.ok.inj h; exact hn
  | .exprS e, st, st', h, hn => by
    simp only [sem_check_stmt] at h
    exact sem_check_expr_nodup e st st' h hn
  | .extrnS names, st, st', h, hn => by
    simp only [sem_check_stmt] at h
    obtain rfl := Except.ok.inj h
    rw [sem_record_extrn_names_implicit]
    exact hn
  | .breakS, st, st', h, hn => by
    simp only [sem_check_stmt] at h
    obtain rfl := Except.ok.inj h; exact hn
  | .continueS, st, st', h, hn => by
    simp only [sem_check_stmt] at h
    obtain rfl := Except.ok.inj h; exact hn
  | .gotoS t, st, st', h, hn => by
    simp only [sem_check_stmt] at h
    obtain rfl := Except.ok.inj h; exact hn
  | .label name stmt, st, st', h, hn => by
    simp only [sem_check_stmt] at h
    by_cases hd : scope_has_in_current st name
    · rw [if_pos hd] at h; cases h
    · rw [if_neg hd] at h
      refine sem_check_stmt_nodup stmt _ st' h ?_
      rw [scope_add_implicit]
      exact hn
  | .switchS e body, st, st', h, hn => by
    simp only [sem_check_stmt] at h
    cases hc : sem_check_expr st e with
    | error err => rw [hc] at h; cases h
    | ok st1 =>
      rw [hc] at h
      exact sem_check_stmt_nodup body st1 st' h
        (sem_check_expr_nodup e st st1 hc hn)
  | .caseS r hr lo hi, st, st', h, hn => by
    simp only [sem_check_stmt] at h
    obtain rfl := Except.ok.inj h; exact hn

/-- Helper: block-item checking preserves duplicate-freeness of the
implicit-statics list. -/
theorem sem_check_stmt_list_nodup : ∀ (items : List Stmt) (st st' : SemState),
    sem_check_stmt_list st items = .ok st' → st.implicit_statics.Nodup →
    st'.implicit_statics.Nodup
  | [], st, st', h, hn => by
    simp only [sem_check_stmt_list] at h
    obtain rfl := Except.ok.inj h; exact hn
  | s :: rest, st, st', h, hn => by
    simp only [sem_check_stmt_list] at h
    cases hs : sem_check_stmt st s with
    | error e => rw [hs] at h; cases h
    | ok st1 =>
      rw [hs] at h
      exact sem_check_stmt_list_nodup rest st1 st' h
        (sem_check_stmt_nodup s st st1 hs hn)

end

/-- Helper: adding parameters leaves the implicit-statics list unchanged. -/
theorem sem_add_params_implicit : ∀ (ps : List String) (st st' : SemState),
    sem_add_params st ps = .ok st' →
    st'.implicit_statics = st.implicit_statics
  | [], st, st', h => by
    simp only [sem_add_params] at h
    obtain rfl := Except.ok.inj h; rfl
  | p :: rest, st, st', h => by
    simp only [sem_add_params] at h
    by_cases hd : scope_has_in_current st p
    · rw [if_pos hd] at h; cases h
    · rw [if_neg hd] at h
      rw [sem_add_params_implicit rest _ st' h, scope_add_implicit]

/-- Helper: checking one function body preserves duplicate-freeness of the
implicit-statics list. -/
theorem sem_check_func_nodup (f : Func) (st st' : SemState)
    (h : sem_check_func st f = .ok st') (hn : st.implicit_statics.Nodup) :
    st'.implicit_statics.Nodup := by
  rw [sem_check_func] at h
  cases hp : sem_add_params (sem_push_scope st) f.params with
  | error e => rw [hp] at h; cases h
  | ok st1 =>
    rw [hp] at h
    dsimp only at h
    have h1 : st1.implicit_statics.Nodup := by
      rw [sem_add_params_implicit f.params _ st1 hp, sem_push_scope_implicit]
      exact hn
    cases hb : sem_check_stmt st1 f.body with
    | error e => rw [hb] at h; cases h
    | ok st2 =>
      rw [hb] at h
      rw [sem_pop_scope_implicit st2 st' h]
      exact sem_check_stmt_nodup f.body st1 st2 hb h1

/-- Helper: the pre-pass global-auto loop leaves the implicit-statics list
unchanged. -/
theorem sem_prepass_gauto_implicit : ∀ (ds : List DeclItem) (st st' : SemState),
    sem_prepass_gauto st ds = .ok st' →
    st'.implicit_statics = st.implicit_statics
  | [], st, st', h => by
    simp only [sem_prepass_gauto] at h
    obtain rfl := Except.ok.inj h; rfl
  | item :: rest, st, st', h => by
    simp only [sem_prepass_gauto] at h
    by_cases hd : scope_has_in_current st item.name
    · rw [if_pos hd] at h; cases h
    · rw [if_neg hd] at h
      rw [sem_prepass_gauto_implicit rest _ st' h, scope_add_implicit]

/-- Helper: one pre-pass step leaves the implicit-statics list unchanged. -/
theorem sem_prepass_top_implicit (t : TopItem) (st st' : SemState)
    (h : sem_prepass_top st t = .ok st') :
    st'.implicit_statics = st.implicit_statics := by
  cases t with
  | gauto s =>
    cases s with
    | autoDecl decls =>
      simp only [sem_prepass_top] at h
      exact sem_prepass_gauto_implicit decls st st' h
    | empty => simp [sem_prepass_top] at h
    | block items => simp [sem_prepass_top] at h
    | ifS a b c => simp [sem_prepass_top] at h
    | whileS a b => simp [sem_prepass_top] at h
    | ret a => simp [sem_prepass_top] at h
    | exprS a => simp [sem_prepass_top] at h
    | extrnS a => simp [sem_prepass_top] at h
    | breakS => simp [sem_prepass_top] at h
    | continueS => simp [sem_prepass_top] at h
    | gotoS a => simp [sem_prepass_top] at h
    | label a b => simp [sem_prepass_top] at h
    | switchS a b => simp [sem_prepass_top] at h
    | caseS a b c d => simp [sem_prepass_top] at h
  | func f =>
    simp only [sem_prepass_top] at h
    by_cases hd : scope_has_in_current (push_fn_name st f.name) f.name
    · rw [if_pos hd] at h; cases h
    · rw [if_neg hd] at h
      obtain rfl := Except.ok.inj h
      rw [scope_add_implicit]
      rfl
  | externDef item =>
    simp only [sem_prepass_top] at h
    by_cases hd : scope_has_in_current st item.name
    · rw [if_pos hd] at h; cases h
    · rw [if_neg hd] at h
      obtain rfl := Except.ok.inj h
      rw [scope_add_implicit]
  | externDecl item =>
    simp only [sem_prepass_top] at h
    obtain rfl := Except.ok.inj h
    rfl

/-- Helper: the pre-pass leaves the implicit-statics list unchanged. -/
theorem sem_prepass_implicit : ∀ (tops : List TopItem) (st st' : SemState),
    sem_prepass st tops = .ok st' →
    st'.implicit_statics = st.implicit_statics
  | [], st, st', h => by
    simp only [sem_prepass] at h
    obtain rfl := Except.ok.inj h; rfl
  | t :: rest, st, st', h => by
    simp only [sem_prepass] at h
    cases ht : sem_prepass_top st t with
    | error e => rw [ht] at h; cases h
    | ok st1 =>
      rw [ht] at h
      rw [sem_prepass_implicit rest st1 st' h, sem_prepass_top_implicit t st st1 ht]

/-- Helper: the body pass preserves duplicate-freeness of the
implicit-statics list. -/
theorem sem_bodypass_nodup : ∀ (tops : List TopItem) (st st' : SemState),
    sem_bodypass st tops = .ok st' → st.implicit_statics.Nodup →
    st'.implicit_statics.Nodup
  | [], st, st', h, hn => by
    simp only [sem_bodypass] at h
    obtain rfl := Except.ok.inj h; exact hn
  | .func f :: rest, st, st', h, hn => by
    simp only [sem_bodypass] at h
    cases hf : sem_check_func st f with
    | error e => rw [hf] at h; cases h
    | ok st1 =>
      rw [hf] at h
      exact sem_bodypass_nodup rest st1 st' h (sem_check_func_nodup f st st1 hf hn)
  | .gauto s :: rest, st, st', h, hn => by
    simp only [sem_bodypass] at h
    exact sem_bodypass_nodup rest st st' h hn
  | .externDef item :: rest, st, st', h, hn => by
    simp only [sem_bodypass] at h
    exact sem_bodypass_nodup rest st st' h hn
  | .externDecl item :: rest, st, st', h, hn => by
    simp only [sem_bodypass] at h
    exact sem_bodypass_nodup rest st st' h hn

/-- Helper: on a duplicate-free name list, the post-pass appends exactly
the implicit definitions of the names not already covered by an external
definition or declaration of the original program. -/
theorem sem_postpass_spec : ∀ (names : List String) (tops : List TopItem),
    names.Nodup →
    sem_postpass tops names
      = tops ++
        (names.filter
          (fun n => ! tops.any (top_declares n))).map implicit_static_def := by
  intro names
  induction names with
  | nil => intro tops _; simp [sem_postpass]
  | cons n rest ih =>
    intro tops hnd
    have hnd' : rest.Nodup := (List.nodup_cons.mp hnd).2
    have hnotin : n ∉ rest := (List.nodup_cons.mp hnd).1
    simp only [sem_postpass]
    by_cases hd : tops.any (top_declares n)
    · rw [if_pos hd, ih tops hnd']
      simp [List.filter_cons, hd]
    · rw [if_neg hd, ih (tops ++ [implicit_static_def n]) hnd']
      have hfilter :
          rest.filter
            (fun m => ! (tops ++ [implicit_static_def n]).any (top_declares m))
          = rest.filter (fun m => ! tops.any (top_declares m)) := by
        apply List.filter_congr
        intro m hm
        have hne : n ≠ m := fun hEq => hnotin (hEq ▸ hm)
        simp [List.any_append, top_declares, implicit_static_def, hne]
      rw [hfilter]
      have hb : (! tops.any (top_declares n)) = true := by simp [hd]
      simp [List.filter_cons, hb]

/-- C3.  After semantic analysis of any program, the program is the
original followed by exactly one new Scalar external definition with the
`is_implicit_static` flag, for each name the body pass collected as an
implicit static (referenced but unresolved, not extrn, not yet promoted),
except those for which an external definition or declaration already exists
in the program, for which nothing is appended. -/
theorem claim_c3_implicit_static_postpass (prog prog' : Program)
    (h : sem_check_program prog = .ok prog') :
    ∃ st1 st2,
      sem_prepass sem_state_new prog.tops = .ok st1
      ∧ sem_bodypass st1 prog.tops = .ok st2
      ∧ st2.implicit_statics.Nodup
      ∧ prog'.tops = prog.tops ++
          ((st2.implicit_statics.filter
              (fun n => ! prog.tops.any (top_declares n))).map
            implicit_static_def) := by
  rw [sem_check_program] at h
  cases h1 : sem_prepass sem_state_new prog.tops with
  | error e => rw [h1] at h; cases h
  | ok st1 =>
    rw [h1] at h
    dsimp only at h
    cases h2 : sem_bodypass st1 prog.tops with
    | error e => rw [h2] at h; cases h
    | ok st2 =>
      rw [h2] at h
      obtain rfl := Except.ok.inj h
      have hi1 : st1.implicit_statics = [] := by
        rw [sem_prepass_implicit prog.tops _ st1 h1]; rfl
      have hnd : st2.implicit_statics.Nodup :=
        sem_bodypass_nodup prog.tops st1 st2 h2
          (by rw [hi1]; exact List.nodup_nil)
      refine ⟨st1, st2, rfl, h2, hnd, ?_⟩
      simpa using sem_postpass_spec st2.implicit_statics prog.tops hnd

/-- C3 (witness): `main() { i = 42; }` passes analysis and gets exactly the
implicit static definition of `i` appended. -/
theorem claim_c3_witness :
    ∃ st1 st2,
      sem_prepass sem_state_new
          [.func ⟨"main", [],
            .block [.exprS (.assign .tASSIGN (.var "i") (.num 42))]⟩]
        = .ok st1
      ∧ sem_bodypass st1
          [.func ⟨"main", [],
            .block [.exprS (.assign .tASSIGN (.var "i") (.num 42))]⟩]
        = .ok st2
      ∧ st2.implicit_statics.Nodup
      ∧ [TopItem.func ⟨"main", [],
            .block [.exprS (.assign .tASSIGN (.var "i") (.num 42))]⟩,
          implicit_static_def "i"]
        = [TopItem.func ⟨"main", [],
            .block [.exprS (.assign .tASSIGN (.var "i") (.num 42))]⟩] ++
          ((st2.implicit_statics.filter
              (fun n => ! [TopItem.func ⟨"main", [],
                .block [.exprS (.assign .tASSIGN (.var "i") (.num 42))]⟩].any
                  (top_declares n))).map implicit_static_def) :=
  claim_c3_implicit_static_postpass
    ⟨[.func ⟨"main", [],
        .block [.exprS (.assign .tASSIGN (.var "i") (.num 42))]⟩]⟩
    ⟨[.func ⟨"main", [],
        .block [.exprS (.assign .tASSIGN (.var "i") (.num 42))]⟩,
      implicit_static_def "i"]⟩
    rfl

-- ===================== C9: name mangling injectivity =====================

/-- Helper: decimal reading of a string extended by one digit. -/
theorem digits_val_append (l : List Char) (c : Char) :
    digits_val (l ++ [c]) = 10 * digits_val l + (c.toNat - 48) := by
  simp [digits_val, List.foldl_append, Nat.mul_comm]

/-- Helper: the digit character of `d < 10` reads back as `d`. -/
theorem digit_ch_val (d : Nat) (hd : d < 10) : (digit_ch d).toNat - 48 = d := by
  interval_cases d <;> decide

/-- Helper: the decimal printer round-trips through decimal reading. -/
theorem nat_dec_digits_go_val :
    ∀ (fuel n : Nat), n ≤ fuel → digits_val (nat_dec_digits_go fuel n) = n := by
  intro fuel
  induction fuel with
  | zero =>
    intro n hn
    have : n = 0 := by omega
    subst this
    decide
  | succ fuel ih =>
    intro n hn
    rw [nat_dec_digits_go]
    by_cases h10 : n < 10
    · rw [if_pos h10]
      simpa [digits_val] using digit_ch_val n h10
    · rw [if_neg h10]
      rw [digits_val_append, ih (n / 10) (by omega), digit_ch_val (n % 10) (by omega)]
      omega

/-- Helper: the decimal printer is injective. -/
theorem natToDec_injective : Function.Injective natToDec := by
  intro m n h
  have hd : nat_dec_digits m = nat_dec_digits n := congrArg String.data h
  have hm : digits_val (nat_dec_digits m) = m := nat_dec_digits_go_val m m le_rfl
  have hn : digits_val (nat_dec_digits n) = n := nat_dec_digits_go_val n n le_rfl
  have h2 : digits_val (nat_dec_digits m) = digits_val (nat_dec_digits n) :=
    congrArg digits_val hd
  omega

/-- Helper: distinct numeric suffixes give distinct candidate names. -/
theorem suffix_cand_injective (base : String) :
    Function.Injective (fun k => base ++ "_" ++ natToDec k) := by
  intro k k' h
  have hdata := congrArg String.data h
  simp only [String.data_append] at hdata
  have := List.append_cancel_left hdata
  exact natToDec_injective (String.ext this)

/-- Helper: `mangled_exists` is membership in the mangled column. -/
theorem mangled_exists_iff (c : String) (m : List NameEntry) :
    mangled_exists c m = true ↔ c ∈ m.map (fun e => e.mangled) := by
  rw [mangled_exists, List.any_eq_true]
  constructor
  · rintro ⟨e, he, heq⟩
    have heq2 : e.mangled = c := by simpa using heq
    exact heq2 ▸ List.mem_map_of_mem _ he
  · intro hmem
    obtain ⟨e, he, heq⟩ := List.mem_map.mp hmem
    exact ⟨e, he, by simpa using heq⟩

/-- Helper: if some candidate within the fuel window is free, the suffix
search returns a name not present in the map. -/
theorem find_suffix_free :
    ∀ (fuel k : Nat) (m : List NameEntry) (base : String),
      (∃ j < fuel, mangled_exists (base ++ "_" ++ natToDec (k + j)) m = false) →
      mangled_exists (find_suffix m base fuel k) m = false := by
  intro fuel
  induction fuel with
  | zero =>
    intro k m base h
    obtain ⟨j, hj, _⟩ := h
    omega
  | succ fuel ih =>
    intro k m base h
    rw [find_suffix]
    cases hx : mangled_exists (base ++ "_" ++ natToDec k) m with
    | false => simpa using hx
    | true =>
      rw [if_pos rfl]
      apply ih (k + 1) m base
      obtain ⟨j, hj, hfree⟩ := h
      cases j with
      | zero => rw [Nat.add_zero] at hfree; rw [hfree] at hx; cases hx
      | succ j' =>
        refine ⟨j', by omega, ?_⟩
        have : k + 1 + j' = k + (j' + 1) := by omega
        rw [this]
        exact hfree

/-- Helper (pigeonhole): among `m.length + 1` distinct candidates at least
one is not among the `m.length` mangled names of the map. -/
theorem find_suffix_exists_free (m : List NameEntry) (base : String) (k : Nat) :
    ∃ j < m.length + 1, mangled_exists (base ++ "_" ++ natToDec (k + j)) m = false := by
  by_contra hcon
  push_neg at hcon
  have hall : ∀ j < m.length + 1,
      (base ++ "_" ++ natToDec (k + j)) ∈ m.map (fun e => e.mangled) := by
    intro j hj
    have := hcon j hj
    rw [← mangled_exists_iff]
    cases hx : mangled_exists (base ++ "_" ++ natToDec (k + j)) m with
    | false => exact absurd hx this
    | true => rfl
  have hnd : ((List.range (m.length + 1)).map
      (fun j => base ++ "_" ++ natToDec (k + j))).Nodup := by
    refine List.Nodup.map ?_ (List.nodup_range _)
    intro a b hab
    have := suffix_cand_injective base hab
    omega
  have hsub : ((List.range (m.length + 1)).map
      (fun j => base ++ "_" ++ natToDec (k + j)))
      ⊆ m.map (fun e => e.mangled) := by
    intro x hx
    obtain ⟨j, hj, rfl⟩ := List.mem_map.mp hx
    exact hall j (List.mem_range.mp hj)
  have := (hnd.subperm hsub).length_le
  simp at this

/-- Helper: for a name not yet in the map, `get_mangled_name` appends one
entry whose mangled name collides with no recorded mangled name. -/
theorem get_mangled_name_fresh (o : String) (m : List NameEntry)
    (hfind : m.find? (fun e => e.original = o) = none) :
    ∃ r, get_mangled_name o m = (r, m ++ [⟨o, r⟩])
      ∧ mangled_exists r m = false := by
  rw [get_mangled_name, hfind]
  dsimp only
  by_cases hx : mangled_exists
      (if is_c_keyword (mangle_name_raw o) then "b_" ++ mangle_name_raw o
       else mangle_name_raw o) m
  · refine ⟨find_suffix m
      (if is_c_keyword (mangle_name_raw o) then "b_" ++ mangle_name_raw o
       else mangle_name_raw o) (m.length + 1) 2, ?_, ?_⟩
    · rw [if_pos hx]
    · exact find_suffix_free (m.length + 1) 2 m _
        (find_suffix_exists_free m _ 2)
  · refine ⟨(if is_c_keyword (mangle_name_raw o) then "b_" ++ mangle_name_raw o
       else mangle_name_raw o), ?_, ?_⟩
    · rw [if_neg hx]
    · simpa using hx

/-- Helper: `get_mangled_name` keeps both columns of the map
duplicate-free. -/
theorem get_mangled_name_inv (o : String) (m : List NameEntry)
    (h1 : (m.map (fun e => e.original)).Nodup)
    (h2 : (m.map (fun e => e.mangled)).Nodup) :
    ((get_mangled_name o m).2.map (fun e => e.original)).Nodup
    ∧ ((get_mangled_name o m).2.map (fun e => e.mangled)).Nodup := by
  cases hfind : m.find? (fun e => e.original = o) with
  | some e =>
    rw [get_mangled_name, hfind]
    exact ⟨h1, h2⟩
  | none =>
    obtain ⟨r, heq, hfresh⟩ := get_mangled_name_fresh o m hfind
    rw [heq]
    have horig : o ∉ m.map (fun e => e.original) := by
      intro hmem
      obtain ⟨e, he, heo⟩ := List.mem_map.mp hmem
      have := List.find?_eq_none.mp hfind e he
      simp [heo] at this
    have hmang : r ∉ m.map (fun e => e.mangled) := by
      intro hmem
      rw [← mangled_exists_iff] at hmem
      rw [hmem] at hfresh
      cases hfresh
    constructor
    · simpa [List.nodup_append, h1] using horig
    · simpa [List.nodup_append, h2] using hmang

/-- Helper: querying a name again right after recording it returns the
recorded mangled name and leaves the map unchanged. -/
theorem get_mangled_name_stable (o : String) (m : List NameEntry) :
    get_mangled_name o (get_mangled_name o m).2
      = ((get_mangled_name o m).1, (get_mangled_name o m).2) := by
  cases hfind : m.find? (fun e => e.original = o) with
  | some e =>
    have hm : get_mangled_name o m = (e.mangled, m) := by
      rw [get_mangled_name, hfind]
    rw [hm]
    exact hm
  | none =>
    obtain ⟨r, heq, _⟩ := get_mangled_name_fresh o m hfind
    rw [heq]
    dsimp only
    rw [get_mangled_name, List.find?_append, hfind]
    simp

/-- Helper: processing any list of names keeps both columns of the map
duplicate-free. -/
theorem mangle_all_inv : ∀ (names : List String) (m : List NameEntry),
    (m.map (fun e => e.original)).Nodup → (m.map (fun e => e.mangled)).Nodup →
    ((mangle_all names m).map (fun e => e.original)).Nodup
    ∧ ((mangle_all names m).map (fun e => e.mangled)).Nodup
  | [], m, h1, h2 => by
    rw [mangle_all]
    exact ⟨h1, h2⟩
  | n :: rest, m, h1, h2 => by
    rw [mangle_all]
    obtain ⟨g1, g2⟩ := get_mangled_name_inv n m h1 h2
    exact mangle_all_inv rest _ g1 g2

/-- C9.  Within one compilation unit (the map starts empty and grows through
`get_mangled_name`), name mangling is injective: distinct B identifiers in
the final map carry distinct C names — invalid characters are encoded,
keyword collisions get a `b_` prefix, and remaining collisions get a numeric
suffix until unique — and querying the same B identifier again returns the
same C name. -/
theorem claim_c9_mangling_injective (names : List String) :
    (∀ e1 ∈ mangle_all names [], ∀ e2 ∈ mangle_all names [],
      e1.original ≠ e2.original → e1.mangled ≠ e2.mangled)
    ∧ (∀ o, (get_mangled_name o
        ((get_mangled_name o (mangle_all names [])).2)).1
        = (get_mangled_name o (mangle_all names [])).1) := by
  obtain ⟨h1, h2⟩ := mangle_all_inv names [] (by simp) (by simp)
  constructor
  · intro e1 he1 e2 he2 hor hmang
    have := List.inj_on_of_nodup_map h2 he1 he2 hmang
    rw [this] at hor
    exact hor rfl
  · intro o
    rw [get_mangled_name_stable]

/-- C9 (witness): `a.b` mangles to `a_b`; the distinct identifier `a_b`
would collide, so it gets the suffix `a_b_2`; and re-querying `a.b` is
stable. -/
theorem claim_c9_witness :
    (⟨"a.b", "a_b"⟩ : NameEntry).mangled ≠ (⟨"a_b", "a_b_2"⟩ : NameEntry).mangled
    ∧ (get_mangled_name "a.b"
        ((get_mangled_name "a.b" (mangle_all ["a.b", "a_b", "auto"] [])).2)).1
      = (get_mangled_name "a.b" (mangle_all ["a.b", "a_b", "auto"] [])).1 := by
  have h := claim_c9_mangling_injective ["a.b", "a_b", "auto"]
  exact ⟨h.1 ⟨"a.b", "a_b"⟩ (by decide) ⟨"a_b", "a_b_2"⟩ (by decide) (by decide),
    h.2 "a.b"⟩
